import Mathlib

/-!
Verification of the Robust-Data-Processor pipeline.

This file shallowly embeds the two Python handlers of the repository:

* `src/worker/handler.py` — phone-number redaction (`redact_phone_numbers`),
  storage (`store_processed_log`), per-message processing (`process_message`)
  and the SQS batch handler (`lambda_handler`);
* `src/api/handler.py` — request validation/normalization
  (`validate_and_normalize`), publishing (`publish_to_sqs`) and the HTTP
  handler (`lambda_handler`).

Python strings are modelled as Lean `String`/`List Char`; the regex character
classes `\d`, `\w`, `\s` are modelled over their ASCII meaning.  `re.sub` is
modelled by a scanner that walks the input left to right, replaces each
leftmost non-overlapping match and resumes after it, matching (including the
word-boundary assertions `\b`) against the original characters — exactly the
semantics of Python's `re.sub`.  External effects (SQS, DynamoDB, `json.loads`,
clocks and id generators) are modelled as explicit parameters or state.
-/

namespace RDP

/-! ### Character classes (ASCII model of Python's `\d`, `\w`, `\s`) -/

/-- ASCII model of the regex word-character class `\w`: letters, digits, `_`. -/
def isWordChar (c : Char) : Bool := c.isAlphanum || c == '_'

/-- Wordness of the character preceding the scan position (`none` at the
start of the string, where `\b` sees a non-word left context). -/
def optWord : Option Char → Bool
  | none => false
  | some c => isWordChar c

/-- The character class `[-.]` used by the phone patterns. -/
def isSep (c : Char) : Bool := c == '-' || c == '.'

/-- ASCII model of the regex whitespace class `\s`. -/
def isSpaceCh (c : Char) : Bool :=
  c == ' ' || c == '\t' || c == '\n' || c == '\r' ||
  c == Char.ofNat 11 || c == Char.ofNat 12

/-- The class `[-.\s]`, the separator of the 10-digit pattern. -/
def isSepSp (c : Char) : Bool := isSep c || isSpaceCh c

/-- True when the remaining input starts with a non-word character or is
empty; this is `\b` seen from a word character on the left. -/
def headNotWord : List Char → Bool
  | [] => true
  | c :: _ => !isWordChar c

/-! ### The three phone-number patterns of `redact_phone_numbers`

The source lists, in order:
  1. `\(\d{3}\)\s?\d{3}[-.]?\d{4}`
  2. `\b\d{3}[-.\s]\d{3}[-.\s]\d{4}\b`
  3. `\b\d{3}[-.]?\d{4}\b`
Each matcher takes the character preceding the scan position (for `\b`) and
the remaining input, and returns the length of the match at this position, if
any.  Greedy `?` with backtracking is modelled by trying the consuming branch
first and falling back to the empty branch. -/

/-- Tail `\d{4}\b`: four digits followed by a word boundary. -/
def tail4b : List Char → Option Nat
  | a :: b :: c :: d :: r =>
    if a.isDigit && b.isDigit && c.isDigit && d.isDigit && headNotWord r then
      some 4
    else none
  | _ => none

/-- Tail `\d{4}` with no trailing boundary (used by pattern 1). -/
def tail4 : List Char → Option Nat
  | a :: b :: c :: d :: _ =>
    if a.isDigit && b.isDigit && c.isDigit && d.isDigit then some 4 else none
  | _ => none

/-- Greedy optional single character `p?` before the continuation `k`:
try consuming one `p`-character, fall back to not consuming it. -/
def afterOpt (p : Char → Bool) (k : List Char → Option Nat) (l : List Char) :
    Option Nat :=
  match l with
  | c :: r =>
    if p c then
      match k r with
      | some n => some (n + 1)
      | none => k l
    else k l
  | [] => k l

/-- Pattern 3: `\b\d{3}[-.]?\d{4}\b`. -/
def match3 (q : Option Char) (l : List Char) : Option Nat :=
  match l with
  | a :: b :: c :: r =>
    if !optWord q && a.isDigit && b.isDigit && c.isDigit then
      (afterOpt isSep tail4b r).map (· + 3)
    else none
  | _ => none

/-- Pattern 2: `\b\d{3}[-.\s]\d{3}[-.\s]\d{4}\b`. -/
def match2 (q : Option Char) (l : List Char) : Option Nat :=
  match l with
  | a :: b :: c :: s :: d :: e :: f :: t :: g :: h :: i :: j :: r =>
    if !optWord q && a.isDigit && b.isDigit && c.isDigit && isSepSp s &&
        d.isDigit && e.isDigit && f.isDigit && isSepSp t &&
        g.isDigit && h.isDigit && i.isDigit && j.isDigit && headNotWord r then
      some 12
    else none
  | _ => none

/-- Tail `\d{3}[-.]?\d{4}`, the part of pattern 1 after the optional space. -/
def tail34 (l : List Char) : Option Nat :=
  match l with
  | a :: b :: c :: r =>
    if a.isDigit && b.isDigit && c.isDigit then
      (afterOpt isSep tail4 r).map (· + 3)
    else none
  | _ => none

/-- Pattern 1: `\(\d{3}\)\s?\d{3}[-.]?\d{4}` (no word-boundary assertions). -/
def match1 (q : Option Char) (l : List Char) : Option Nat :=
  match l with
  | o :: a :: b :: c :: p :: r =>
    if o == '(' && a.isDigit && b.isDigit && c.isDigit && p == ')' then
      (afterOpt isSpaceCh tail34 r).map (· + 5)
    else none
  | _ => none

/-- The replacement text `'[REDACTED]'`. -/
def REDACTED : List Char := ['[', 'R', 'E', 'D', 'A', 'C', 'T', 'E', 'D', ']']

/-! ### `re.sub`

`substFuel m fuel prev l` replaces every leftmost non-overlapping `m`-match in
`l` by `REDACTED`, resuming after each match; `prev` is the character of the
original string just before `l` (boundary context).  The fuel is an upper
bound on the number of scan steps; every match consumes at least one
character, so `fuel = l.length` computes the substitution exactly. -/

def substFuel (m : Option Char → List Char → Option Nat) :
    Nat → Option Char → List Char → List Char
  | 0, _, l => l
  | _ + 1, _, [] => []
  | fuel + 1, prev, c :: cs =>
    match m prev (c :: cs) with
    | some n =>
      REDACTED ++ substFuel m fuel (((c :: cs).take n).getLast?) ((c :: cs).drop n)
    | none => c :: substFuel m fuel (some c) cs

/-- Computes `re.sub(pattern, '[REDACTED]', l)` for the matcher `m`. -/
def subst (m : Option Char → List Char → Option Nat) (l : List Char) :
    List Char :=
  substFuel m l.length none l

/-- Holds (`hasM m prev l = true`) iff some position of `l` starts an `m`-match
(`prev` is the character before `l`). -/
def hasM (m : Option Char → List Char → Option Nat) :
    Option Char → List Char → Bool
  | _, [] => false
  | q, c :: cs => (m q (c :: cs)).isSome || hasM m (some c) cs

/-- The redaction pipeline on character lists: the three patterns in order,
each `re.sub` over the output of the previous one. -/
def redactList (l : List Char) : List Char :=
  subst match3 (subst match2 (subst match1 l))

namespace worker

/-- Function `redact_phone_numbers` from `src/worker/handler.py`. -/
def redact_phone_numbers (s : String) : String :=
  ⟨redactList s.data⟩

end worker

/-- A character that can start a match of any of the three patterns. -/
def patStart (c : Char) : Bool := c.isDigit || c == '('

/-- The character of the original string just before position `k`, given the
ambient previous character `p` of the whole string. -/
def prevAt (p : Option Char) (cs : List Char) (k : Nat) : Option Char :=
  if k = 0 then p else cs[k - 1]?

/-- The scanning-context invariant for the boundary patterns: the ambient
previous character has the same wordness as the real one, or it is non-word
and the remaining input starts at a word boundary anyway. -/
def SideB (q p : Option Char) (l : List Char) : Prop :=
  optWord q = optWord p ∨ (optWord q = false ∧ headNotWord l = true)

/-! ### Worker: storage and batch processing (`src/worker/handler.py`)

The parsed SQS message body is a JSON object; `message.get(key)` returns the
value or `None`, and `message[key]` raises `KeyError` when the key is absent.
We model each field as an `Option String` where `none` stands for an absent
key.  The DynamoDB table is threaded as an explicit list of stored items; the
wall clock (`datetime.utcnow()`) is an explicit parameter. -/

namespace worker

/-- A parsed queue message (the dict produced by `json.loads` of the body). -/
structure WorkerMsg where
  tenant_id : Option String
  log_id : Option String
  normalized_text : Option String
  source : Option String
  received_at : Option String
  request_id : Option String

/-- The item dict written by `store_processed_log`. -/
structure StoredItem where
  tenant_id : String
  log_id : String
  source : String
  original_text : String
  modified_data : String
  processed_at : String
  received_at : String
  request_id : String
  worker_id : String
  attempt : Nat
deriving DecidableEq

/-- Modelled from the spec: the external DynamoDB table (§4.5 Idempotent
Store, not part of `src/`).  `put_item` with the key `(tenant_id, log_id)` of
an existing record replaces the stored value entirely; otherwise it inserts. -/
def putItem (store : List StoredItem) (it : StoredItem) : List StoredItem :=
  store.filter (fun e => !(e.tenant_id == it.tenant_id && e.log_id == it.log_id)) ++ [it]

/-- Function `store_processed_log`: build the item dict and write it.  Accessing a
missing key (`message['tenant_id']`, …) raises `KeyError`, which the
function's `except` turns into `False` with no write. -/
def store_processed_log (nowIso : String) (message : WorkerMsg) (modified_data : String)
    (attempt : Nat) (worker_id : String) (store : List StoredItem) :
    Bool × List StoredItem :=
  match message.tenant_id, message.log_id, message.source, message.normalized_text,
      message.received_at, message.request_id with
  | some tid, some lid, some src, some ntext, some rcv, some rid =>
    (true, putItem store
      { tenant_id := tid
        log_id := lid
        source := src
        original_text := ntext
        modified_data := modified_data
        processed_at := nowIso
        received_at := rcv
        request_id := rid
        worker_id := worker_id
        attempt := attempt })
  | _, _, _, _, _, _ => (false, store)

/-- Function `process_message`: simulate processing (`len(None)` raises, caught as a
failure), redact, store.  Returns success together with the updated store. -/
def process_message (nowIso : String) (message_body : WorkerMsg) (worker_id : String)
    (attempt : Nat) (store : List StoredItem) : Bool × List StoredItem :=
  match message_body.normalized_text with
  | none => (false, store)
  | some ntext =>
    let modified_data := redact_phone_numbers ntext
    store_processed_log nowIso message_body modified_data attempt worker_id store

/-- An SQS record of the batch event.  `body = none` models a record body
that `json.loads` rejects. -/
structure SqsRecord where
  messageId : String
  body : Option WorkerMsg
  receiptHandle : String
  approxReceiveCount : Nat

/-- One iteration of the batch loop of `lambda_handler`: parse the body
(decode failure is caught and reported), process, and record the failure
identifier if processing did not succeed. -/
def recordStep (worker_id nowIso : String) (acc : List String × List StoredItem)
    (record : SqsRecord) : List String × List StoredItem :=
  match record.body with
  | none => (acc.1 ++ [record.messageId], acc.2)
  | some message_body =>
    let res := process_message nowIso message_body worker_id record.approxReceiveCount acc.2
    (if res.1 then acc.1 else acc.1 ++ [record.messageId], res.2)

/-- Function `lambda_handler` of the worker: fold over the delivered records,
accumulating `batchItemFailures` identifiers and the store state. -/
def lambda_handler (worker_id nowIso : String) (records : List SqsRecord)
    (store : List StoredItem) : List String × List StoredItem :=
  records.foldl (recordStep worker_id nowIso) ([], store)

/-- Whether a message carries every field the processing and storage path
reads; exactly when this holds, `process_message` succeeds. -/
def msgOk (m : WorkerMsg) : Bool :=
  m.normalized_text.isSome && m.tenant_id.isSome && m.log_id.isSome &&
  m.source.isSome && m.received_at.isSome && m.request_id.isSome

/-- Whether a record will process successfully: its body decodes and the
message carries every required field. -/
def recordOk (r : SqsRecord) : Bool :=
  match r.body with
  | none => false
  | some m => msgOk m

/-- The item a successful message writes. -/
def msgItem (worker_id nowIso : String) (m : WorkerMsg) (attempt : Nat) : StoredItem :=
  { tenant_id := m.tenant_id.getD ""
    log_id := m.log_id.getD ""
    source := m.source.getD ""
    original_text := m.normalized_text.getD ""
    modified_data := redact_phone_numbers (m.normalized_text.getD "")
    processed_at := nowIso
    received_at := m.received_at.getD ""
    request_id := m.request_id.getD ""
    worker_id := worker_id
    attempt := attempt }

/-- The item a record writes when it succeeds. -/
def recordItem (worker_id nowIso : String) (r : SqsRecord) : StoredItem :=
  match r.body with
  | none => msgItem worker_id nowIso ⟨none, none, none, none, none, none⟩ r.approxReceiveCount
  | some m => msgItem worker_id nowIso m r.approxReceiveCount

/-- The storage key of an item. -/
def keyOf (it : StoredItem) : String × String := (it.tenant_id, it.log_id)

end worker

/-! ### API: validation, normalization and HTTP handling (`src/api/handler.py`)

Headers are modelled as an association list; the dict comprehension
`{k.lower(): v for k, v in headers.items()}` with `.get` becomes a
lowercasing map with last-match lookup.  `json.loads` is an external library
function and is passed in as a parameter `jparse` with three outcomes: a
decode failure (`json.JSONDecodeError`, the only exception the source
catches), a successful parse to a non-object value (on which `payload.get`
then raises an uncaught `AttributeError`), or a successful parse to an
object.  A parsed payload field that is absent or empty is falsy in Python
(`if not tenant_id:`), modelled by `falsyS`.  `uuid.uuid4()` and
`datetime.utcnow()` are passed in as the parameters
`genLogId`/`genReqId`/`nowIso`; response bodies are modelled as the field
lists handed to `json.dumps`.  An exception escaping `validate_and_normalize`
propagates through `lambda_handler` (which has no try/except), so both
functions have an explicit `raised` outcome. -/

namespace api

/-- The JSON object shape the handler reads (`tenant_id`, `log_id`, `text`);
`none` models an absent key (`payload.get` returns `None`). -/
structure JsonPayload where
  tenant_id : Option String
  log_id : Option String
  text : Option String
deriving DecidableEq

/-- Outcome of `json.loads` on a request body: `decodeError` is a
`json.JSONDecodeError` (the only exception the source catches); `nonObject`
is a successful parse to a value that is not an object — a list, string,
number, boolean or null, on which `payload.get('tenant_id')` raises an
uncaught `AttributeError`; `obj` is a successful parse to an object,
restricted to the fields the handler reads. -/
inductive JsonParse where
  | decodeError
  | nonObject
  | obj (payload : JsonPayload)
deriving DecidableEq

/-- The API Gateway event: headers, body, route. -/
structure ApiEvent where
  headers : List (String × String)
  body : Option String
  rawPath : String
  method : String

/-- Python falsiness of an optional string: `None` or `''`. -/
def falsyS : Option String → Bool
  | none => true
  | some s => s == ""

/-- Python `str.strip()`: remove leading and trailing whitespace (ASCII
whitespace model, matching the `\s` class). -/
def pyStrip (s : String) : String :=
  ⟨((s.data.dropWhile isSpaceCh).reverse.dropWhile isSpaceCh).reverse⟩

/-- Python `str.lower()` (ASCII model), character-wise. -/
def lowerStr (s : String) : String := ⟨s.data.map Char.toLower⟩

/-- Models the dict comprehension lowering every header key. -/
def lowerHeaders (hs : List (String × String)) : List (String × String) :=
  hs.map (fun kv => (lowerStr kv.1, kv.2))

/-- Dict lookup over an association list built left to right (later keys
overwrite earlier ones, as in a Python dict). -/
def dictGet (hs : List (String × String)) (k : String) : Option String :=
  (hs.reverse.find? (fun kv => kv.1 == k)).map (fun kv => kv.2)

/-- Substring test, modelling Python's `pat in s`. -/
def isInfixB (p : List Char) : List Char → Bool
  | [] => p.isEmpty
  | c :: t => p.isPrefixOf (c :: t) || isInfixB p t

/-- Computes `pat in s` for strings. -/
def containsSub (s pat : String) : Bool := isInfixB pat.data s.data

/-- An HTTP response: status code and the fields of the JSON body handed to
`json.dumps` (all responses also carry a constant content-type header). -/
structure HttpResp where
  statusCode : Nat
  bodyFields : List (String × String)
deriving DecidableEq

/-- The canonical message published to SQS. -/
structure IngestMessage where
  tenant_id : String
  log_id : String
  normalized_text : String
  source : String
  received_at : String
  request_id : String
deriving DecidableEq

/-- A 400 response with the standard error envelope. -/
def badRequest (msg : String) : HttpResp :=
  ⟨400, [("error", "Bad Request"), ("message", msg)]⟩

/-- Outcome of `validate_and_normalize`: the Python function returns the pair
`(message, error)` with exactly one side set (`ok`/`error`), or lets an
uncaught exception propagate (`raised`). -/
inductive ValidateOutcome where
  | ok (message : IngestMessage)
  | error (response : HttpResp)
  | raised
deriving DecidableEq

/-- Function `validate_and_normalize` from `src/api/handler.py`.  The
`try` around the JSON branch catches only `json.JSONDecodeError`, so a body
that parses to a non-object value makes `payload.get('tenant_id')` raise an
uncaught `AttributeError`: that path is `raised`, not an error response. -/
def validate_and_normalize (jparse : String → JsonParse)
    (genLogId genReqId nowIso : String) (event : ApiEvent) :
    ValidateOutcome :=
  let headers := lowerHeaders event.headers
  let content_type := (dictGet headers "content-type").getD ""
  let body := event.body.getD ""
  if falsyS event.body || pyStrip body == "" then
    .error (badRequest "Request body cannot be empty")
  else if containsSub content_type "application/json" then
    match jparse body with
    | .decodeError => .error (badRequest "Invalid JSON")
    | .nonObject => .raised
    | .obj payload =>
      if falsyS payload.tenant_id then
        .error (badRequest "tenant_id is required in JSON payload")
      else if falsyS payload.text then
        .error (badRequest "text field is required in JSON payload")
      else
        .ok { tenant_id := payload.tenant_id.getD ""
              log_id := if falsyS payload.log_id then genLogId else payload.log_id.getD ""
              normalized_text := payload.text.getD ""
              source := "json_upload"
              received_at := nowIso
              request_id := (dictGet headers "x-request-id").getD genReqId }
  else if containsSub content_type "text/plain" then
    if falsyS (dictGet headers "x-tenant-id") then
      .error (badRequest "X-Tenant-ID header is required for text/plain requests")
    else
      .ok { tenant_id := (dictGet headers "x-tenant-id").getD ""
            log_id := genLogId
            normalized_text := body
            source := "text_upload"
            received_at := nowIso
            request_id := (dictGet headers "x-request-id").getD genReqId }
  else
    .error (badRequest "Content-Type must be application/json or text/plain")

/-- Function `publish_to_sqs`: hand the message to the queue; the transport outcome is
the external parameter `publishOk`.  Returns the reported success and the
messages the queue accepted (none on failure — no partial enqueue). -/
def publish_to_sqs (publishOk : Bool) (message : IngestMessage) :
    Bool × List IngestMessage :=
  if publishOk then (true, [message]) else (false, [])

/-- The handler's normal outcome: the HTTP response and the messages
enqueued. -/
structure HandlerResult where
  response : HttpResp
  enqueued : List IngestMessage
deriving DecidableEq

/-- Outcome of a `lambda_handler` invocation: an HTTP response together with
the enqueued messages, or a crash — `lambda_handler` has no try/except, so an
exception from `validate_and_normalize` propagates out of the invocation; no
response is produced by this code and nothing is published. -/
inductive HandlerOutcome where
  | respond (result : HandlerResult)
  | raised
deriving DecidableEq

/-- Function `lambda_handler` from `src/api/handler.py`. -/
def lambda_handler (jparse : String → JsonParse)
    (genLogId genReqId nowIso : String) (publishOk : Bool) (event : ApiEvent) :
    HandlerOutcome :=
  if event.method != "POST" || event.rawPath != "/ingest" then
    .respond ⟨⟨404, [("error", "Not Found")]⟩, []⟩
  else
    match validate_and_normalize jparse genLogId genReqId nowIso event with
    | .raised => .raised
    | .error r => .respond ⟨r, []⟩
    | .ok message =>
      let pub := publish_to_sqs publishOk message
      if !pub.1 then
        .respond ⟨⟨500, [("error", "Internal Server Error"),
                ("message", "Failed to publish message to queue")]⟩, pub.2⟩
      else
        .respond ⟨⟨202, [("status", "accepted"), ("log_id", message.log_id),
                ("request_id", message.request_id)]⟩, pub.2⟩
end api

/-! ### Concrete instances used by the claim witnesses and counterexamples -/

namespace api

/-- The spec scenario: a JSON request whose payload lacks `tenant_id`. -/
def evMissingTenant : ApiEvent :=
  { headers := [("Content-Type", "application/json")]
    body := some "\x7b\"text\": \"hello\"\x7d"
    rawPath := "/ingest"
    method := "POST" }

/-- The behaviour of `json.loads` on the body of `evMissingTenant`. -/
def jparseMissingTenant : String → JsonParse := fun s =>
  if s == "\x7b\"text\": \"hello\"\x7d" then .obj ⟨none, none, some "hello"⟩ else .decodeError

/-- A JSON request whose `text` field is a single blank. -/
def evBlankText : ApiEvent :=
  { headers := [("Content-Type", "application/json")]
    body := some "\x7b\"tenant_id\": \"t\", \"log_id\": \"l\", \"text\": \" \"\x7d"
    rawPath := "/ingest"
    method := "POST" }

/-- The behaviour of `json.loads` on the body of `evBlankText`. -/
def jparseBlankText : String → JsonParse := fun s =>
  if s == "\x7b\"tenant_id\": \"t\", \"log_id\": \"l\", \"text\": \" \"\x7d" then
    .obj ⟨some "t", some "l", some " "⟩
  else .decodeError

/-- A JSON request whose body is the JSON array `[]`: it decodes, but to a
list rather than an object, and the list has no `tenant_id` field. -/
def evJsonArray : ApiEvent :=
  { headers := [("Content-Type", "application/json")]
    body := some "[]"
    rawPath := "/ingest"
    method := "POST" }

/-- The behaviour of `json.loads` on the body of `evJsonArray`: the parse
succeeds but yields a non-object value. -/
def jparseJsonArray : String → JsonParse := fun s =>
  if s == "[]" then .nonObject else .decodeError

/-- The plain-text request of the spec scenario (`X-Tenant-ID: acme`). -/
def evTextAcme : ApiEvent :=
  { headers := [("Content-Type", "text/plain"), ("X-Tenant-ID", "acme")]
    body := some "Raw log message"
    rawPath := "/ingest"
    method := "POST" }

/-- A plain-text request whose `X-Tenant-ID` header is present but empty. -/
def evTextEmptyHeader : ApiEvent :=
  { headers := [("Content-Type", "text/plain"), ("X-Tenant-ID", "")]
    body := some "hi"
    rawPath := "/ingest"
    method := "POST" }

end api

namespace worker

/-- A well-formed queue message. -/
def wmsg1 : WorkerMsg :=
  ⟨some "acme", some "log-1", some "hello 555-0199", some "json_upload", some "t0", some "r1"⟩

/-- Another well-formed queue message with a different key. -/
def wmsg3 : WorkerMsg :=
  ⟨some "acme", some "log-3", some "plain text", some "text_upload", some "t0", some "r3"⟩

/-- A batch of three records whose middle record has an undecodable body. -/
def wbatch : List SqsRecord :=
  [⟨"m1", some wmsg1, "rh1", 1⟩, ⟨"m2", none, "rh2", 1⟩, ⟨"m3", some wmsg3, "rh3", 1⟩]

/-- First delivery of the record with key `("acme", "001")`. -/
def wmsgKey : WorkerMsg :=
  ⟨some "acme", some "001", some "first text", some "json_upload", some "t0", some "r1"⟩

/-- Redelivery of the record with key `("acme", "001")`, different contents. -/
def wmsgKey2 : WorkerMsg :=
  ⟨some "acme", some "001", some "second text", some "json_upload", some "t1", some "r2"⟩

end worker

/-! ### Basic character-class facts -/

lemma sep_not_digit {c : Char} (h : isSep c = true) : c.isDigit = false := by
  rcases (by simpa [isSep] using h : c = '-' ∨ c = '.') with h | h <;> subst h <;> decide

lemma space_not_digit {c : Char} (h : isSpaceCh c = true) : c.isDigit = false := by
  have : c = ' ' ∨ c = '\t' ∨ c = '\n' ∨ c = '\r' ∨ c = Char.ofNat 11 ∨ c = Char.ofNat 12 := by
    simpa [isSpaceCh, or_assoc] using h
  rcases this with h | h | h | h | h | h <;> subst h <;> decide

lemma digit_word {c : Char} (h : c.isDigit = true) : isWordChar c = true := by
  simp [isWordChar, Char.isAlphanum, h]

lemma digit_not_sep {c : Char} (h : c.isDigit = true) : isSep c = false := by
  cases hs : isSep c
  · rfl
  · exact absurd h (by simp [sep_not_digit hs])

lemma digit_not_space {c : Char} (h : c.isDigit = true) : isSpaceCh c = false := by
  cases hs : isSpaceCh c
  · rfl
  · exact absurd h (by simp [space_not_digit hs])

/-! ### Characterizations of the three matchers -/

lemma tail4b_some_iff (l : List Char) (j : Nat) :
    tail4b l = some j ↔
      j = 4 ∧ ∃ a b c d r, l = a :: b :: c :: d :: r ∧
        a.isDigit = true ∧ b.isDigit = true ∧ c.isDigit = true ∧ d.isDigit = true ∧
        headNotWord r = true := by
  rcases l with _ | ⟨a, _ | ⟨b, _ | ⟨c, _ | ⟨d, r⟩⟩⟩⟩ <;>
    simp [tail4b, and_assoc] <;> aesop

lemma tail4_some_iff (l : List Char) (j : Nat) :
    tail4 l = some j ↔
      j = 4 ∧ ∃ a b c d r, l = a :: b :: c :: d :: r ∧
        a.isDigit = true ∧ b.isDigit = true ∧ c.isDigit = true ∧ d.isDigit = true := by
  rcases l with _ | ⟨a, _ | ⟨b, _ | ⟨c, _ | ⟨d, r⟩⟩⟩⟩ <;>
    simp [tail4, and_assoc] <;> aesop

lemma match3_some_iff (q : Option Char) (l : List Char) (n : Nat) :
    match3 q l = some n ↔
      optWord q = false ∧
      ((n = 7 ∧ ∃ a b c d e f g r, l = a :: b :: c :: d :: e :: f :: g :: r ∧
          a.isDigit = true ∧ b.isDigit = true ∧ c.isDigit = true ∧ d.isDigit = true ∧
          e.isDigit = true ∧ f.isDigit = true ∧ g.isDigit = true ∧ headNotWord r = true) ∨
       (n = 8 ∧ ∃ a b c s d e f g r, l = a :: b :: c :: s :: d :: e :: f :: g :: r ∧
          a.isDigit = true ∧ b.isDigit = true ∧ c.isDigit = true ∧ isSep s = true ∧
          d.isDigit = true ∧ e.isDigit = true ∧ f.isDigit = true ∧ g.isDigit = true ∧
          headNotWord r = true)) := by
  constructor
  · intro h
    rcases l with _ | ⟨a, l⟩; · simp [match3] at h
    rcases l with _ | ⟨b, l⟩; · simp [match3] at h
    rcases l with _ | ⟨c, l⟩; · simp [match3] at h
    rw [match3] at h
    split_ifs at h with hc
    · have hc' := hc
      simp only [Bool.and_eq_true, Bool.not_eq_true'] at hc'
      obtain ⟨⟨⟨hq, ha⟩, hb⟩, hcd⟩ := hc'
      rcases hm : afterOpt isSep tail4b l with _ | m
      · rw [hm] at h; simp at h
      · rw [hm] at h
        simp only [Option.map_some'] at h
        have hn : n = m + 3 := by injection h; omega
        rcases l with _ | ⟨s, r⟩
        · simp [afterOpt, tail4b] at hm
        · rw [afterOpt] at hm
          split_ifs at hm with hs
          · rcases ht : tail4b r with _ | j
            · rw [ht] at hm
              rw [tail4b_some_iff] at hm
              obtain ⟨-, w, x, y, z, r', hr, hw, -⟩ := hm
              injection hr with h1 h2
              subst h1
              exact absurd hw (by simp [sep_not_digit hs])
            · rw [ht] at hm
              rw [tail4b_some_iff] at ht
              obtain ⟨hj, d, e, f, g, r', hr, hd, he, hf, hg, hb'⟩ := ht
              injection hm with hm
              refine ⟨hq, Or.inr ⟨by omega, a, b, c, s, d, e, f, g, r', by rw [hr], ha, hb, hcd, hs, hd, he, hf, hg, hb'⟩⟩
          · rw [tail4b_some_iff] at hm
            obtain ⟨hj, d, e, f, g, r', hr, hd, he, hf, hg, hb'⟩ := hm
            refine ⟨hq, Or.inl ⟨by omega, a, b, c, d, e, f, g, r', by rw [hr], ha, hb, hcd, hd, he, hf, hg, hb'⟩⟩
  · rintro ⟨hq, ⟨hn, a, b, c, d, e, f, g, r, hl, ha, hb, hc, hd, he, hf, hg, hr⟩ |
      ⟨hn, a, b, c, s, d, e, f, g, r, hl, ha, hb, hc, hs, hd, he, hf, hg, hr⟩⟩
    · subst hl hn
      have hds : isSep d = false := digit_not_sep hd
      simp [match3, afterOpt, tail4b, hq, ha, hb, hc, hd, he, hf, hg, hr, hds]
    · subst hl hn
      simp [match3, afterOpt, tail4b, hq, ha, hb, hc, hs, hd, he, hf, hg, hr]

lemma match2_some_iff (q : Option Char) (l : List Char) (n : Nat) :
    match2 q l = some n ↔
      n = 12 ∧ optWord q = false ∧
      ∃ a b c s d e f t g h i j r,
        l = a :: b :: c :: s :: d :: e :: f :: t :: g :: h :: i :: j :: r ∧
        a.isDigit = true ∧ b.isDigit = true ∧ c.isDigit = true ∧ isSepSp s = true ∧
        d.isDigit = true ∧ e.isDigit = true ∧ f.isDigit = true ∧ isSepSp t = true ∧
        g.isDigit = true ∧ h.isDigit = true ∧ i.isDigit = true ∧ j.isDigit = true ∧
        headNotWord r = true := by
  rcases l with _ | ⟨a, _ | ⟨b, _ | ⟨c, _ | ⟨s, _ | ⟨d, _ | ⟨e, _ | ⟨f, _ | ⟨t, _ | ⟨g,
      _ | ⟨h, _ | ⟨i, _ | ⟨j, r⟩⟩⟩⟩⟩⟩⟩⟩⟩⟩⟩⟩ <;>
    simp [match2, and_assoc] <;> aesop

lemma tail34_some_iff (l : List Char) (m : Nat) :
    tail34 l = some m ↔
      ((m = 7 ∧ ∃ a b c d e f g r, l = a :: b :: c :: d :: e :: f :: g :: r ∧
          a.isDigit = true ∧ b.isDigit = true ∧ c.isDigit = true ∧ d.isDigit = true ∧
          e.isDigit = true ∧ f.isDigit = true ∧ g.isDigit = true) ∨
       (m = 8 ∧ ∃ a b c s d e f g r, l = a :: b :: c :: s :: d :: e :: f :: g :: r ∧
          a.isDigit = true ∧ b.isDigit = true ∧ c.isDigit = true ∧ isSep s = true ∧
          d.isDigit = true ∧ e.isDigit = true ∧ f.isDigit = true ∧ g.isDigit = true)) := by
  constructor
  · intro h
    rcases l with _ | ⟨a, l⟩; · simp [tail34] at h
    rcases l with _ | ⟨b, l⟩; · simp [tail34] at h
    rcases l with _ | ⟨c, l⟩; · simp [tail34] at h
    rw [tail34] at h
    split_ifs at h with hc
    · have hc' := hc
      simp only [Bool.and_eq_true] at hc'
      obtain ⟨⟨ha, hb⟩, hcd⟩ := hc'
      rcases hm : afterOpt isSep tail4 l with _ | k
      · rw [hm] at h; simp at h
      · rw [hm] at h
        simp only [Option.map_some'] at h
        have hn : m = k + 3 := by injection h; omega
        rcases l with _ | ⟨s, r⟩
        · simp [afterOpt, tail4] at hm
        · rw [afterOpt] at hm
          split_ifs at hm with hs
          · rcases ht : tail4 r with _ | j
            · rw [ht] at hm
              rw [tail4_some_iff] at hm
              obtain ⟨-, w, x, y, z, r', hr, hw, -⟩ := hm
              injection hr with h1 h2
              subst h1
              exact absurd hw (by simp [sep_not_digit hs])
            · rw [ht] at hm
              rw [tail4_some_iff] at ht
              obtain ⟨hj, d, e, f, g, r', hr, hd, he, hf, hg⟩ := ht
              injection hm with hm
              exact Or.inr ⟨by omega, a, b, c, s, d, e, f, g, r', by rw [hr], ha, hb, hcd, hs, hd, he, hf, hg⟩
          · rw [tail4_some_iff] at hm
            obtain ⟨hj, d, e, f, g, r', hr, hd, he, hf, hg⟩ := hm
            exact Or.inl ⟨by omega, a, b, c, d, e, f, g, r', by rw [hr], ha, hb, hcd, hd, he, hf, hg⟩
  · rintro (⟨hn, a, b, c, d, e, f, g, r, hl, ha, hb, hc, hd, he, hf, hg⟩ |
      ⟨hn, a, b, c, s, d, e, f, g, r, hl, ha, hb, hc, hs, hd, he, hf, hg⟩)
    · subst hl hn
      have hds : isSep d = false := digit_not_sep hd
      simp [tail34, afterOpt, tail4, ha, hb, hc, hd, he, hf, hg, hds]
    · subst hl hn
      simp [tail34, afterOpt, tail4, ha, hb, hc, hs, hd, he, hf, hg]

lemma match1_some_iff (q : Option Char) (l : List Char) (n : Nat) :
    match1 q l = some n ↔
      ∃ a b c r, l = '(' :: a :: b :: c :: ')' :: r ∧
        a.isDigit = true ∧ b.isDigit = true ∧ c.isDigit = true ∧
        ((n = 12 ∧ ∃ d e f g h i j r', r = d :: e :: f :: g :: h :: i :: j :: r' ∧
            d.isDigit = true ∧ e.isDigit = true ∧ f.isDigit = true ∧ g.isDigit = true ∧
            h.isDigit = true ∧ i.isDigit = true ∧ j.isDigit = true) ∨
         (n = 13 ∧ ∃ d e f s g h i j r', r = d :: e :: f :: s :: g :: h :: i :: j :: r' ∧
            d.isDigit = true ∧ e.isDigit = true ∧ f.isDigit = true ∧ isSep s = true ∧
            g.isDigit = true ∧ h.isDigit = true ∧ i.isDigit = true ∧ j.isDigit = true) ∨
         (n = 13 ∧ ∃ sp d e f g h i j r', r = sp :: d :: e :: f :: g :: h :: i :: j :: r' ∧
            isSpaceCh sp = true ∧ d.isDigit = true ∧ e.isDigit = true ∧ f.isDigit = true ∧
            g.isDigit = true ∧ h.isDigit = true ∧ i.isDigit = true ∧ j.isDigit = true) ∨
         (n = 14 ∧ ∃ sp d e f s g h i j r', r = sp :: d :: e :: f :: s :: g :: h :: i :: j :: r' ∧
            isSpaceCh sp = true ∧ d.isDigit = true ∧ e.isDigit = true ∧ f.isDigit = true ∧
            isSep s = true ∧ g.isDigit = true ∧ h.isDigit = true ∧ i.isDigit = true ∧
            j.isDigit = true)) := by
  constructor
  · intro h
    rcases l with _ | ⟨o, l⟩; · simp [match1] at h
    rcases l with _ | ⟨a, l⟩; · simp [match1] at h
    rcases l with _ | ⟨b, l⟩; · simp [match1] at h
    rcases l with _ | ⟨c, l⟩; · simp [match1] at h
    rcases l with _ | ⟨p, l⟩; · simp [match1] at h
    rw [match1] at h
    split_ifs at h with hc
    · have hc' := hc
      simp only [Bool.and_eq_true, beq_iff_eq] at hc'
      obtain ⟨⟨⟨⟨ho, ha⟩, hb⟩, hcd⟩, hp⟩ := hc'
      subst ho hp
      rcases hm : afterOpt isSpaceCh tail34 l with _ | m
      · rw [hm] at h; simp at h
      · rw [hm] at h
        simp only [Option.map_some'] at h
        have hn : n = m + 5 := by injection h; omega
        rcases l with _ | ⟨s, r⟩
        · simp [afterOpt, tail34] at hm
        · rw [afterOpt] at hm
          split_ifs at hm with hs
          · rcases ht : tail34 r with _ | j
            · rw [ht] at hm
              rw [tail34_some_iff] at hm
              rcases hm with ⟨-, w, x, y, z, u, v, w', r', hr, hw, -⟩ |
                ⟨-, w, x, y, z, u, v, w', x', r', hr, hw, -⟩ <;>
              · injection hr with h1 h2
                subst h1
                exact absurd hw (by simp [space_not_digit hs])
            · rw [ht] at hm
              injection hm with hm
              rw [tail34_some_iff] at ht
              rcases ht with ⟨hj, d, e, f, g, h', i, j', r', hr, hd, he, hf, hg, hh, hi, hj'⟩ |
                ⟨hj, d, e, f, s', g, h', i, j', r', hr, hd, he, hf, hs', hg, hh, hi, hj'⟩
              · exact ⟨a, b, c, s :: r, rfl, ha, hb, hcd, Or.inr (Or.inr (Or.inl
                  ⟨by omega, s, d, e, f, g, h', i, j', r', by rw [hr], hs, hd, he, hf, hg, hh, hi, hj'⟩))⟩
              · exact ⟨a, b, c, s :: r, rfl, ha, hb, hcd, Or.inr (Or.inr (Or.inr
                  ⟨by omega, s, d, e, f, s', g, h', i, j', r', by rw [hr], hs, hd, he, hf, hs', hg, hh, hi, hj'⟩))⟩
          · rw [tail34_some_iff] at hm
            rcases hm with ⟨hj, d, e, f, g, h', i, j', r', hr, hd, he, hf, hg, hh, hi, hj'⟩ |
              ⟨hj, d, e, f, s', g, h', i, j', r', hr, hd, he, hf, hs', hg, hh, hi, hj'⟩
            · exact ⟨a, b, c, s :: r, rfl, ha, hb, hcd, Or.inl
                ⟨by omega, d, e, f, g, h', i, j', r', by rw [hr], hd, he, hf, hg, hh, hi, hj'⟩⟩
            · exact ⟨a, b, c, s :: r, rfl, ha, hb, hcd, Or.inr (Or.inl
                ⟨by omega, d, e, f, s', g, h', i, j', r', by rw [hr], hd, he, hf, hs', hg, hh, hi, hj'⟩)⟩
  · rintro ⟨a, b, c, r, hl, ha, hb, hc, hcase⟩
    subst hl
    rcases hcase with ⟨hn, d, e, f, g, h', i, j', r', hr, hd, he, hf, hg, hh, hi, hj'⟩ |
      ⟨hn, d, e, f, s, g, h', i, j', r', hr, hd, he, hf, hs, hg, hh, hi, hj'⟩ |
      ⟨hn, sp, d, e, f, g, h', i, j', r', hr, hsp, hd, he, hf, hg, hh, hi, hj'⟩ |
      ⟨hn, sp, d, e, f, s, g, h', i, j', r', hr, hsp, hd, he, hf, hs, hg, hh, hi, hj'⟩
    · subst hr hn
      simp [match1, afterOpt, tail34, tail4, ha, hb, hc, hd, he, hf, hg, hh, hi, hj',
        digit_not_space hd, digit_not_sep hg]
    · subst hr hn
      simp [match1, afterOpt, tail34, tail4, ha, hb, hc, hd, he, hf, hs, hg, hh, hi, hj',
        digit_not_space hd]
    · subst hr hn
      simp [match1, afterOpt, tail34, tail4, ha, hb, hc, hsp, hd, he, hf, hg, hh, hi, hj',
        digit_not_sep hg]
    · subst hr hn
      simp [match1, afterOpt, tail34, tail4, ha, hb, hc, hsp, hd, he, hf, hs, hg, hh, hi, hj']

/-! ### Facts derived from the characterizations -/

lemma digit_ne_lb {c : Char} (h : c.isDigit = true) : c ≠ '[' := by
  rintro rfl; simp at h

lemma sep_ne_lb {c : Char} (h : isSep c = true) : c ≠ '[' := by
  rintro rfl; simp [isSep] at h

lemma sepsp_ne_lb {c : Char} (h : isSepSp c = true) : c ≠ '[' := by
  rintro rfl; simp [isSepSp, isSep, isSpaceCh] at h

lemma space_ne_lb {c : Char} (h : isSpaceCh c = true) : c ≠ '[' := by
  rintro rfl; simp [isSpaceCh] at h

lemma match3_bounds {q : Option Char} {l : List Char} {n : Nat}
    (h : match3 q l = some n) : 2 ≤ n ∧ n ≤ l.length := by
  rw [match3_some_iff] at h
  rcases h with ⟨-, ⟨hn, a, b, c, d, e, f, g, r, hl, -⟩ | ⟨hn, a, b, c, s, d, e, f, g, r, hl, -⟩⟩ <;>
    subst hl hn <;> simp

lemma match2_bounds {q : Option Char} {l : List Char} {n : Nat}
    (h : match2 q l = some n) : 2 ≤ n ∧ n ≤ l.length := by
  rw [match2_some_iff] at h
  obtain ⟨hn, -, a, b, c, s, d, e, f, t, g, h', i, j, r, hl, -⟩ := h
  subst hl hn; simp

lemma match1_bounds {q : Option Char} {l : List Char} {n : Nat}
    (h : match1 q l = some n) : 2 ≤ n ∧ n ≤ l.length := by
  rw [match1_some_iff] at h
  obtain ⟨a, b, c, r, hl, -, -, -, hcase⟩ := h
  subst hl
  rcases hcase with ⟨hn, d, e, f, g, h', i, j, r', hr, -⟩ | ⟨hn, d, e, f, s, g, h', i, j, r', hr, -⟩ |
    ⟨hn, sp, d, e, f, g, h', i, j, r', hr, -⟩ | ⟨hn, sp, d, e, f, s, g, h', i, j, r', hr, -⟩ <;>
    subst hr hn <;> simp

lemma match3_prevWord {q q' : Option Char} (hq : optWord q = optWord q') (l : List Char) :
    match3 q l = match3 q' l := by
  cases h1 : match3 q l with
  | some n =>
    rw [match3_some_iff] at h1
    exact ((match3_some_iff q' l n).mpr ⟨hq ▸ h1.1, h1.2⟩).symm
  | none =>
    cases h2 : match3 q' l with
    | none => rfl
    | some n =>
      rw [match3_some_iff] at h2
      exact absurd ((match3_some_iff q l n).mpr ⟨hq ▸ h2.1, h2.2⟩) (by simp [h1])

lemma match2_prevWord {q q' : Option Char} (hq : optWord q = optWord q') (l : List Char) :
    match2 q l = match2 q' l := by
  cases h1 : match2 q l with
  | some n =>
    rw [match2_some_iff] at h1
    exact ((match2_some_iff q' l n).mpr ⟨h1.1, hq ▸ h1.2.1, h1.2.2⟩).symm
  | none =>
    cases h2 : match2 q' l with
    | none => rfl
    | some n =>
      rw [match2_some_iff] at h2
      exact absurd ((match2_some_iff q l n).mpr ⟨h2.1, hq ▸ h2.2.1, h2.2.2⟩) (by simp [h1])

lemma match1_prevAny (q q' : Option Char) (l : List Char) :
    match1 q l = match1 q' l := by
  cases h1 : match1 q l with
  | some n =>
    rw [match1_some_iff] at h1
    exact ((match1_some_iff q' l n).mpr h1).symm
  | none =>
    cases h2 : match1 q' l with
    | none => rfl
    | some n =>
      rw [match1_some_iff] at h2
      exact absurd ((match1_some_iff q l n).mpr h2) (by simp [h1])


lemma match3_head {q : Option Char} {l : List Char} {n : Nat}
    (h : match3 q l = some n) : ∃ c t, l = c :: t ∧ c.isDigit = true := by
  rw [match3_some_iff] at h
  rcases h with ⟨-, ⟨-, a, b, c, d, e, f, g, r, hl, ha, -⟩ | ⟨-, a, b, c, s, d, e, f, g, r, hl, ha, -⟩⟩ <;>
    exact ⟨a, _, hl, ha⟩

lemma match2_head {q : Option Char} {l : List Char} {n : Nat}
    (h : match2 q l = some n) : ∃ c t, l = c :: t ∧ c.isDigit = true := by
  rw [match2_some_iff] at h
  obtain ⟨-, -, a, b, c, s, d, e, f, t, g, h', i, j, r, hl, ha, -⟩ := h
  exact ⟨a, _, hl, ha⟩

lemma match1_head {q : Option Char} {l : List Char} {n : Nat}
    (h : match1 q l = some n) : ∃ t, l = '(' :: t := by
  rw [match1_some_iff] at h
  obtain ⟨a, b, c, r, hl, -⟩ := h
  exact ⟨_, hl⟩

lemma match3_none_of_head {q : Option Char} {c : Char} {t : List Char}
    (h : c.isDigit = false) : match3 q (c :: t) = none := by
  cases hm : match3 q (c :: t) with
  | none => rfl
  | some n =>
    obtain ⟨c', t', he, hd⟩ := match3_head hm
    injection he with h1 h2
    subst h1
    simp [h] at hd

lemma match2_none_of_head {q : Option Char} {c : Char} {t : List Char}
    (h : c.isDigit = false) : match2 q (c :: t) = none := by
  cases hm : match2 q (c :: t) with
  | none => rfl
  | some n =>
    obtain ⟨c', t', he, hd⟩ := match2_head hm
    injection he with h1 h2
    subst h1
    simp [h] at hd

lemma match1_none_of_head {q : Option Char} {c : Char} {t : List Char}
    (h : ¬c = '(') : match1 q (c :: t) = none := by
  cases hm : match1 q (c :: t) with
  | none => rfl
  | some n =>
    obtain ⟨t', he⟩ := match1_head hm
    injection he with h1 h2
    exact absurd h1 h

lemma match3_firstB {q : Option Char} {l : List Char} {n : Nat}
    (h : match3 q l = some n) : optWord q = false := by
  rw [match3_some_iff] at h; exact h.1

lemma match2_firstB {q : Option Char} {l : List Char} {n : Nat}
    (h : match2 q l = some n) : optWord q = false := by
  rw [match2_some_iff] at h; exact h.2.1

lemma match3_endB {q : Option Char} {l : List Char} {n : Nat}
    (h : match3 q l = some n) : headNotWord (l.drop n) = true := by
  rw [match3_some_iff] at h
  rcases h with ⟨-, ⟨hn, a, b, c, d, e, f, g, r, hl, -, -, -, -, -, -, -, hr⟩ |
    ⟨hn, a, b, c, s, d, e, f, g, r, hl, -, -, -, -, -, -, -, -, hr⟩⟩ <;>
    subst hl hn <;> simpa

lemma match2_endB {q : Option Char} {l : List Char} {n : Nat}
    (h : match2 q l = some n) : headNotWord (l.drop n) = true := by
  rw [match2_some_iff] at h
  obtain ⟨hn, -, a, b, c, s, d, e, f, t, g, h', i, j, r, hl, -, -, -, -, -, -, -, -, -, -, -, -, hr⟩ := h
  subst hl hn; simpa

lemma take_mem_of_getElem {l : List Char} {i n : Nat} {a : Char}
    (hi : i < n) (h : l[i]? = some a) : a ∈ l.take n := by
  have ht : (l.take n)[i]? = some a := by rw [List.getElem?_take]; simp [hi, h]
  exact List.getElem?_mem ht

lemma match3_chars {q : Option Char} {l : List Char} {n : Nat}
    (h : match3 q l = some n) : ∀ c0 ∈ l.take n, c0 ≠ '[' := by
  rw [match3_some_iff] at h
  rcases h with ⟨-, ⟨hn, a, b, c, d, e, f, g, r, hl, ha, hb, hc, hd, he, hf, hg, -⟩ |
    ⟨hn, a, b, c, s, d, e, f, g, r, hl, ha, hb, hc, hs, hd, he, hf, hg, -⟩⟩ <;>
    subst hl hn <;> intro c0 hc0 <;> simp at hc0
  · rcases hc0 with rfl | rfl | rfl | rfl | rfl | rfl | rfl
    exacts [digit_ne_lb ha, digit_ne_lb hb, digit_ne_lb hc, digit_ne_lb hd,
      digit_ne_lb he, digit_ne_lb hf, digit_ne_lb hg]
  · rcases hc0 with rfl | rfl | rfl | rfl | rfl | rfl | rfl | rfl
    exacts [digit_ne_lb ha, digit_ne_lb hb, digit_ne_lb hc, sep_ne_lb hs,
      digit_ne_lb hd, digit_ne_lb he, digit_ne_lb hf, digit_ne_lb hg]

lemma match2_chars {q : Option Char} {l : List Char} {n : Nat}
    (h : match2 q l = some n) : ∀ c0 ∈ l.take n, c0 ≠ '[' := by
  rw [match2_some_iff] at h
  obtain ⟨hn, -, a, b, c, s, d, e, f, t, g, h', i, j, r, hl, ha, hb, hc, hs, hd, he, hf,
    ht, hg, hh, hi, hj, -⟩ := h
  subst hl hn
  intro c0 hc0
  simp at hc0
  rcases hc0 with rfl | rfl | rfl | rfl | rfl | rfl | rfl | rfl | rfl | rfl | rfl | rfl
  exacts [digit_ne_lb ha, digit_ne_lb hb, digit_ne_lb hc, sepsp_ne_lb hs,
    digit_ne_lb hd, digit_ne_lb he, digit_ne_lb hf, sepsp_ne_lb ht,
    digit_ne_lb hg, digit_ne_lb hh, digit_ne_lb hi, digit_ne_lb hj]

lemma match1_chars {q : Option Char} {l : List Char} {n : Nat}
    (h : match1 q l = some n) : ∀ c0 ∈ l.take n, c0 ≠ '[' := by
  rw [match1_some_iff] at h
  obtain ⟨a, b, c, r, hl, ha, hb, hc, hcase⟩ := h
  subst hl
  have hop : ('(' : Char) ≠ '[' := by decide
  have hcp : (')' : Char) ≠ '[' := by decide
  rcases hcase with ⟨hn, d, e, f, g, h', i, j, r', hr, hd, he, hf, hg, hh, hi, hj⟩ |
    ⟨hn, d, e, f, s, g, h', i, j, r', hr, hd, he, hf, hs, hg, hh, hi, hj⟩ |
    ⟨hn, sp, d, e, f, g, h', i, j, r', hr, hsp, hd, he, hf, hg, hh, hi, hj⟩ |
    ⟨hn, sp, d, e, f, s, g, h', i, j, r', hr, hsp, hd, he, hf, hs, hg, hh, hi, hj⟩ <;>
    subst hr hn <;> intro c0 hc0 <;> simp at hc0
  · rcases hc0 with rfl | rfl | rfl | rfl | rfl | rfl | rfl | rfl | rfl | rfl | rfl | rfl
    exacts [hop, digit_ne_lb ha, digit_ne_lb hb, digit_ne_lb hc, hcp, digit_ne_lb hd,
      digit_ne_lb he, digit_ne_lb hf, digit_ne_lb hg, digit_ne_lb hh, digit_ne_lb hi,
      digit_ne_lb hj]
  · rcases hc0 with rfl | rfl | rfl | rfl | rfl | rfl | rfl | rfl | rfl | rfl | rfl | rfl | rfl
    exacts [hop, digit_ne_lb ha, digit_ne_lb hb, digit_ne_lb hc, hcp, digit_ne_lb hd,
      digit_ne_lb he, digit_ne_lb hf, sep_ne_lb hs, digit_ne_lb hg, digit_ne_lb hh,
      digit_ne_lb hi, digit_ne_lb hj]
  · rcases hc0 with rfl | rfl | rfl | rfl | rfl | rfl | rfl | rfl | rfl | rfl | rfl | rfl | rfl
    exacts [hop, digit_ne_lb ha, digit_ne_lb hb, digit_ne_lb hc, hcp, space_ne_lb hsp,
      digit_ne_lb hd, digit_ne_lb he, digit_ne_lb hf, digit_ne_lb hg, digit_ne_lb hh,
      digit_ne_lb hi, digit_ne_lb hj]
  · rcases hc0 with rfl | rfl | rfl | rfl | rfl | rfl | rfl | rfl | rfl | rfl | rfl | rfl | rfl | rfl
    exacts [hop, digit_ne_lb ha, digit_ne_lb hb, digit_ne_lb hc, hcp, space_ne_lb hsp,
      digit_ne_lb hd, digit_ne_lb he, digit_ne_lb hf, sep_ne_lb hs, digit_ne_lb hg,
      digit_ne_lb hh, digit_ne_lb hi, digit_ne_lb hj]

lemma match3_last {q : Option Char} {l : List Char} {n : Nat}
    (h : match3 q l = some n) : ∃ c0, l[n - 1]? = some c0 ∧ c0.isDigit = true := by
  rw [match3_some_iff] at h
  rcases h with ⟨-, ⟨hn, a, b, c, d, e, f, g, r, hl, -, -, -, -, -, -, hg, -⟩ |
    ⟨hn, a, b, c, s, d, e, f, g, r, hl, -, -, -, -, -, -, -, hg, -⟩⟩ <;>
    subst hl hn <;> exact ⟨_, by simp, hg⟩

lemma match2_last {q : Option Char} {l : List Char} {n : Nat}
    (h : match2 q l = some n) : ∃ c0, l[n - 1]? = some c0 ∧ c0.isDigit = true := by
  rw [match2_some_iff] at h
  obtain ⟨hn, -, a, b, c, s, d, e, f, t, g, h', i, j, r, hl, -, -, -, -, -, -, -, -, -, -, -, hj, -⟩ := h
  subst hl hn
  exact ⟨_, by simp, hj⟩

/-- Decomposing a target list that agrees with `x ++ r` on the first
`x.length + 1` characters: the target starts with `x` and its tail starts
with the same character as `r` (or both are exhausted), so `headNotWord`
agrees. -/
lemma det_decomp {x r l' : List Char}
    (ht : (x ++ r).take (x.length + 1) = l'.take (x.length + 1)) :
    ∃ r'', l' = x ++ r'' ∧ headNotWord r'' = headNotWord r := by
  have h1 : (x ++ r).take (x.length + 1) = x ++ r.take 1 := List.take_append 1
  refine ⟨r.take 1 ++ l'.drop (x.length + 1), ?_, ?_⟩
  · conv_lhs => rw [← List.take_append_drop (x.length + 1) l', ← ht, h1, List.append_assoc]
  · cases r with
    | nil =>
      have hlen : l'.length ≤ x.length := by
        have hc := congrArg List.length ht
        simp [h1] at hc
        omega
      have hdrop : l'.drop (x.length + 1) = [] :=
        List.drop_eq_nil_of_le (by omega)
      simp [hdrop, headNotWord]
    | cons rc rt => simp [headNotWord]

lemma match2_det {q : Option Char} {l l' : List Char} {n : Nat}
    (h : match2 q l = some n) (ht : l.take (n + 1) = l'.take (n + 1)) :
    match2 q l' = some n := by
  rw [match2_some_iff] at h
  obtain ⟨hn, hq, a, b, c, s, d, e, f, t, g, h', i, j, r, hl, ha, hb, hc, hs, hd, he, hf,
    hts, hg, hh, hi, hj, hr⟩ := h
  subst hl hn
  have ht' : (([a, b, c, s, d, e, f, t, g, h', i, j] ++ r).take
      ([a, b, c, s, d, e, f, t, g, h', i, j].length + 1)) = l'.take
      ([a, b, c, s, d, e, f, t, g, h', i, j].length + 1) := by
    simpa using ht
  obtain ⟨r'', hl', hhw⟩ := det_decomp ht'
  rw [match2_some_iff]
  exact ⟨rfl, hq, a, b, c, s, d, e, f, t, g, h', i, j, r'', by simpa using hl', ha, hb, hc,
    hs, hd, he, hf, hts, hg, hh, hi, hj, by rw [hhw]; exact hr⟩

lemma match3_det {q : Option Char} {l l' : List Char} {n : Nat}
    (h : match3 q l = some n) (ht : l.take (n + 1) = l'.take (n + 1)) :
    match3 q l' = some n := by
  rw [match3_some_iff] at h
  rcases h with ⟨hq, ⟨hn, a, b, c, d, e, f, g, r, hl, ha, hb, hc, hd, he, hf, hg, hr⟩ |
    ⟨hn, a, b, c, s, d, e, f, g, r, hl, ha, hb, hc, hs, hd, he, hf, hg, hr⟩⟩
  · subst hl hn
    have ht' : (([a, b, c, d, e, f, g] ++ r).take ([a, b, c, d, e, f, g].length + 1))
        = l'.take ([a, b, c, d, e, f, g].length + 1) := by simpa using ht
    obtain ⟨r'', hl', hhw⟩ := det_decomp ht'
    rw [match3_some_iff]
    exact ⟨hq, Or.inl ⟨rfl, a, b, c, d, e, f, g, r'', by simpa using hl', ha, hb, hc, hd,
      he, hf, hg, by rw [hhw]; exact hr⟩⟩
  · subst hl hn
    have ht' : (([a, b, c, s, d, e, f, g] ++ r).take ([a, b, c, s, d, e, f, g].length + 1))
        = l'.take ([a, b, c, s, d, e, f, g].length + 1) := by simpa using ht
    obtain ⟨r'', hl', hhw⟩ := det_decomp ht'
    rw [match3_some_iff]
    exact ⟨hq, Or.inr ⟨rfl, a, b, c, s, d, e, f, g, r'', by simpa using hl', ha, hb, hc, hs,
      hd, he, hf, hg, by rw [hhw]; exact hr⟩⟩

lemma match1_det {q : Option Char} {l l' : List Char} {n : Nat}
    (h : match1 q l = some n) (ht : l.take n = l'.take n) :
    match1 q l' = some n := by
  rw [match1_some_iff] at h
  obtain ⟨a, b, c, r, hl, ha, hb, hc, hcase⟩ := h
  subst hl
  rcases hcase with ⟨hn, d, e, f, g, h', i, j, r', hr, hd, he, hf, hg, hh, hi, hj⟩ |
    ⟨hn, d, e, f, s, g, h', i, j, r', hr, hd, he, hf, hs, hg, hh, hi, hj⟩ |
    ⟨hn, sp, d, e, f, g, h', i, j, r', hr, hsp, hd, he, hf, hg, hh, hi, hj⟩ |
    ⟨hn, sp, d, e, f, s, g, h', i, j, r', hr, hsp, hd, he, hf, hs, hg, hh, hi, hj⟩
  · subst hr hn
    have hx : ((['(', a, b, c, ')', d, e, f, g, h', i, j] ++ r').take
        (['(', a, b, c, ')', d, e, f, g, h', i, j].length)) = ['(', a, b, c, ')', d, e, f, g, h', i, j] :=
      List.take_left _ _
    have hl' : l' = ['(', a, b, c, ')', d, e, f, g, h', i, j] ++ l'.drop 12 := by
      conv_lhs => rw [← List.take_append_drop 12 l']
      congr 1
      rw [← ht]
      simpa using hx.symm ▸ rfl
    rw [match1_some_iff]
    exact ⟨a, b, c, d :: e :: f :: g :: h' :: i :: j :: l'.drop 12, by simpa using hl', ha, hb, hc,
      Or.inl ⟨rfl, d, e, f, g, h', i, j, l'.drop 12, rfl, hd, he, hf, hg, hh, hi, hj⟩⟩
  · subst hr hn
    have hl' : l' = ['(', a, b, c, ')', d, e, f, s, g, h', i, j] ++ l'.drop 13 := by
      conv_lhs => rw [← List.take_append_drop 13 l']
      congr 1
      rw [← ht]
      simpa using (List.take_left ['(', a, b, c, ')', d, e, f, s, g, h', i, j] r').symm ▸ rfl
    rw [match1_some_iff]
    exact ⟨a, b, c, d :: e :: f :: s :: g :: h' :: i :: j :: l'.drop 13, by simpa using hl', ha, hb, hc,
      Or.inr (Or.inl ⟨rfl, d, e, f, s, g, h', i, j, l'.drop 13, rfl, hd, he, hf, hs, hg, hh, hi, hj⟩)⟩
  · subst hr hn
    have hl' : l' = ['(', a, b, c, ')', sp, d, e, f, g, h', i, j] ++ l'.drop 13 := by
      conv_lhs => rw [← List.take_append_drop 13 l']
      congr 1
      rw [← ht]
      simpa using (List.take_left ['(', a, b, c, ')', sp, d, e, f, g, h', i, j] r').symm ▸ rfl
    rw [match1_some_iff]
    exact ⟨a, b, c, sp :: d :: e :: f :: g :: h' :: i :: j :: l'.drop 13, by simpa using hl', ha, hb, hc,
      Or.inr (Or.inr (Or.inl ⟨rfl, sp, d, e, f, g, h', i, j, l'.drop 13, rfl, hsp, hd, he, hf, hg, hh, hi, hj⟩))⟩
  · subst hr hn
    have hl' : l' = ['(', a, b, c, ')', sp, d, e, f, s, g, h', i, j] ++ l'.drop 14 := by
      conv_lhs => rw [← List.take_append_drop 14 l']
      congr 1
      rw [← ht]
      simpa using (List.take_left ['(', a, b, c, ')', sp, d, e, f, s, g, h', i, j] r').symm ▸ rfl
    rw [match1_some_iff]
    exact ⟨a, b, c, sp :: d :: e :: f :: s :: g :: h' :: i :: j :: l'.drop 14, by simpa using hl', ha, hb, hc,
      Or.inr (Or.inr (Or.inr ⟨rfl, sp, d, e, f, s, g, h', i, j, l'.drop 14, rfl, hsp, hd, he, hf, hs, hg, hh, hi, hj⟩))⟩

/-! ### Structure of the substitution output -/


/-- Either the scanner copies the whole input unchanged, or its output is an
unchanged prefix of the input followed by `'['` (the start of the first
replacement), and the matcher fires at that position of the input. -/
lemma substFuel_struct (m : Option Char → List Char → Option Nat) :
    ∀ f p cs, cs.length ≤ f →
      substFuel m f p cs = cs ∨
      ∃ k rest', k < cs.length ∧
        substFuel m f p cs = cs.take k ++ '[' :: rest' ∧
        ∃ n', m (prevAt p cs k) (cs.drop k) = some n' := by
  intro f
  induction f with
  | zero => intro p cs _; exact Or.inl rfl
  | succ f ih =>
    intro p cs hlen
    cases cs with
    | nil => exact Or.inl rfl
    | cons c cs' =>
      cases hm : m p (c :: cs') with
      | some n =>
        right
        refine ⟨0, ['R', 'E', 'D', 'A', 'C', 'T', 'E', 'D', ']'] ++
          substFuel m f (((c :: cs').take n).getLast?) ((c :: cs').drop n), by simp, ?_, n, ?_⟩
        · simp only [substFuel, hm, REDACTED]
          simp
        · simpa [prevAt] using hm
      | none =>
        have hlen' : cs'.length ≤ f := by simp at hlen; omega
        rcases ih (some c) cs' hlen' with heq | ⟨k, rest', hk, hout, n', hm'⟩
        · left
          simp only [substFuel, hm, heq]
        · right
          refine ⟨k + 1, rest', by simpa using Nat.succ_lt_succ hk, ?_, n', ?_⟩
          · simp only [substFuel, hm, hout, List.take_succ_cons, List.cons_append]
          · have hp : prevAt p (c :: cs') (k + 1) = prevAt (some c) cs' k := by
              unfold prevAt
              cases k with
              | zero => simp
              | succ k' => simp
            rw [hp]
            simpa using hm'

/-! ### The crux: a failed match position stays failed after substitution

If the matcher `m` does not fire at a position of the original string, it
does not fire at that position of the substituted string either.  A match in
the substituted string would have to live strictly before the first
replacement (then it transfers back by determinism), or touch the
replacement text — impossible because matches contain no `'['` and, for the
boundary patterns, end in a digit while every replaced span of `M` demands a
non-word character before it. -/

lemma crux_b {m M : Option Char → List Char → Option Nat}
    (hdet : ∀ q l l' n, m q l = some n → l.take (n + 1) = l'.take (n + 1) → m q l' = some n)
    (hlast : ∀ q l n, m q l = some n → ∃ c0, l[n - 1]? = some c0 ∧ c0.isDigit = true)
    (hchars : ∀ q l n, m q l = some n → ∀ c0 ∈ l.take n, c0 ≠ '[')
    (hbounds : ∀ q l n, m q l = some n → 2 ≤ n ∧ n ≤ l.length)
    (hMfirstB : ∀ q l n, M q l = some n → optWord q = false)
    {f : Nat} {p : Option Char} {cs : List Char} {c : Char} {q : Option Char}
    (hf : cs.length ≤ f) (hnone : m q (c :: cs) = none) :
    m q (c :: substFuel M f p cs) = none := by
  cases hn : m q (c :: substFuel M f p cs) with
  | none => rfl
  | some n =>
    exfalso
    rcases substFuel_struct M f p cs hf with heq | ⟨k, rest', hk, hout, n', hm'⟩
    · rw [heq, hnone] at hn
      exact Option.noConfusion hn
    · rw [hout] at hn
      have htkk : (cs.take k).length = k := by
        simp [Nat.le_of_lt hk]
      rcases lt_trichotomy n (k + 1) with hlt | heq' | hgt
      · have htake : (c :: (cs.take k ++ '[' :: rest')).take (n + 1) = (c :: cs).take (n + 1) := by
          simp only [List.take_succ_cons]
          rw [List.take_append_of_le_length (by omega), List.take_take,
            Nat.min_eq_left (by omega)]
        exact absurd (hdet _ _ _ _ hn htake) (by simp [hnone])
      · obtain ⟨c0, hc0, hdig⟩ := hlast _ _ _ hn
        have hk1 : 1 ≤ k := by
          have h2 := (hbounds _ _ _ hn).1
          omega
        rcases k with _ | k''
        · omega
        · have hc0' : cs[k'']? = some c0 := by
            rw [show n - 1 = k'' + 1 by omega] at hc0
            simp only [List.getElem?_cons_succ, List.getElem?_append, List.getElem?_take,
              htkk] at hc0
            simpa [Nat.lt_succ_self] using hc0
          have hfb := hMfirstB _ _ _ hm'
          rw [prevAt, if_neg (by omega)] at hfb
          rw [show k'' + 1 - 1 = k'' by omega, hc0'] at hfb
          rw [show optWord (some c0) = isWordChar c0 from rfl, digit_word hdig] at hfb
          exact Bool.noConfusion hfb
      · have hlb : (c :: (cs.take k ++ '[' :: rest'))[k + 1]? = some '[' := by
          rw [List.getElem?_cons_succ, List.getElem?_append_right (by omega)]
          simp [htkk]
        have hmem : ('[' : Char) ∈ (c :: (cs.take k ++ '[' :: rest')).take n :=
          take_mem_of_getElem hgt hlb
        exact hchars _ _ _ hn _ hmem rfl

lemma crux_1g {M : Option Char → List Char → Option Nat}
    {f : Nat} {p : Option Char} {cs : List Char} {c : Char} {q : Option Char}
    (hf : cs.length ≤ f) (hnone : match1 q (c :: cs) = none) :
    match1 q (c :: substFuel M f p cs) = none := by
  cases hn : match1 q (c :: substFuel M f p cs) with
  | none => rfl
  | some n =>
    exfalso
    rcases substFuel_struct M f p cs hf with heq | ⟨k, rest', hk, hout, n', hm'⟩
    · rw [heq, hnone] at hn
      exact Option.noConfusion hn
    · rw [hout] at hn
      have htkk : (cs.take k).length = k := by
        simp [Nat.le_of_lt hk]
      rcases le_or_lt n (k + 1) with hle | hgt
      · have h2 := (match1_bounds hn).1
        rcases n with _ | n''
        · omega
        · have htake : (c :: (cs.take k ++ '[' :: rest')).take (n'' + 1)
              = (c :: cs).take (n'' + 1) := by
            simp only [List.take_succ_cons]
            rw [List.take_append_of_le_length (by omega), List.take_take,
              Nat.min_eq_left (by omega)]
          exact absurd (match1_det hn htake) (by simp [hnone])
      · have hlb : (c :: (cs.take k ++ '[' :: rest'))[k + 1]? = some '[' := by
          rw [List.getElem?_cons_succ, List.getElem?_append_right (by omega)]
          simp [htkk]
        have hmem : ('[' : Char) ∈ (c :: (cs.take k ++ '[' :: rest')).take n :=
          take_mem_of_getElem hgt hlb
        exact match1_chars hn _ hmem rfl

/-! ### Scanning lemmas -/

lemma match3_startChar : ∀ (q : Option Char) (c : Char) (t : List Char),
    patStart c = false → match3 q (c :: t) = none := by
  intro q c t h
  have hd : c.isDigit = false := by
    simp [patStart] at h
    exact h.1
  exact match3_none_of_head hd

lemma match2_startChar : ∀ (q : Option Char) (c : Char) (t : List Char),
    patStart c = false → match2 q (c :: t) = none := by
  intro q c t h
  have hd : c.isDigit = false := by
    simp [patStart] at h
    exact h.1
  exact match2_none_of_head hd

lemma match1_startChar : ∀ (q : Option Char) (c : Char) (t : List Char),
    patStart c = false → match1 q (c :: t) = none := by
  intro q c t h
  have hd : ¬c = '(' := by
    simp [patStart] at h
    exact h.2
  exact match1_none_of_head hd

/-- Walking the scanner over a replacement: no match starts inside
`'[REDACTED]'`, so scanning `REDACTED ++ z` reduces to scanning `z` with the
previous character `']'`. -/
lemma hasM_red {m : Option Char → List Char → Option Nat}
    (hstart : ∀ q c t, patStart c = false → m q (c :: t) = none)
    (q : Option Char) (z : List Char) :
    hasM m q (REDACTED ++ z) = hasM m (some ']') z := by
  have hlb : ∀ (q' : Option Char) t, m q' ('[' :: t) = none := fun q' t => hstart q' '[' t (by decide)
  have hR : ∀ (q' : Option Char) t, m q' ('R' :: t) = none := fun q' t => hstart q' 'R' t (by decide)
  have hE : ∀ (q' : Option Char) t, m q' ('E' :: t) = none := fun q' t => hstart q' 'E' t (by decide)
  have hD : ∀ (q' : Option Char) t, m q' ('D' :: t) = none := fun q' t => hstart q' 'D' t (by decide)
  have hA : ∀ (q' : Option Char) t, m q' ('A' :: t) = none := fun q' t => hstart q' 'A' t (by decide)
  have hC : ∀ (q' : Option Char) t, m q' ('C' :: t) = none := fun q' t => hstart q' 'C' t (by decide)
  have hT : ∀ (q' : Option Char) t, m q' ('T' :: t) = none := fun q' t => hstart q' 'T' t (by decide)
  have hrb : ∀ (q' : Option Char) t, m q' (']' :: t) = none := fun q' t => hstart q' ']' t (by decide)
  simp [REDACTED, hasM, hlb, hR, hE, hD, hA, hC, hT, hrb]

/-- If no position of `l` (scanned with previous character `p`) matches, then
neither does any position of a suffix, scanned with the character that
precedes it in `l`. -/
lemma hasM_drop {m : Option Char → List Char → Option Nat} :
    ∀ (k : Nat) (l : List Char) (p : Option Char), hasM m p l = false →
      hasM m ((l.take (k + 1)).getLast?) (l.drop (k + 1)) = false := by
  intro k
  induction k with
  | zero =>
    intro l p h
    cases l with
    | nil => rfl
    | cons c cs =>
      simp only [hasM, Bool.or_eq_false_iff] at h
      simpa using h.2
  | succ k ih =>
    intro l p h
    cases l with
    | nil => rfl
    | cons c cs =>
      simp only [hasM, Bool.or_eq_false_iff] at h
      have h2 := ih cs (some c) h.2
      cases cs with
      | nil => simp [hasM]
      | cons c' cs' =>
        simpa [List.take_succ_cons, List.getLast?_cons_cons] using h2

/-- If no position matches, the substitution is the identity. -/
lemma substFuel_id {m : Option Char → List Char → Option Nat} :
    ∀ (f : Nat) (p : Option Char) (l : List Char), l.length ≤ f →
      hasM m p l = false → substFuel m f p l = l := by
  intro f
  induction f with
  | zero => intro p l _ _; rfl
  | succ f ih =>
    intro p l hlen h
    cases l with
    | nil => rfl
    | cons c cs =>
      simp only [hasM, Bool.or_eq_false_iff] at h
      have h1 : m p (c :: cs) = none := by
        rcases hm : m p (c :: cs) with _ | n
        · rfl
        · rw [hm] at h; simp at h
      have hlen' : cs.length ≤ f := by simp at hlen; omega
      simp only [substFuel, h1]
      rw [ih (some c) cs hlen' h.2]

/-- Self-stability of substitution: the output of `substFuel M` contains no
`M`-match.  `Side` is an invariant relating the ambient scanning context `q`
to the substitution context `p`. -/
lemma self_scan {M : Option Char → List Char → Option Nat}
    (Side : Option Char → Option Char → List Char → Prop)
    (crux : ∀ f p cs c q, cs.length ≤ f → M q (c :: cs) = none →
      M q (c :: substFuel M f p cs) = none)
    (hstart : ∀ q c t, patStart c = false → M q (c :: t) = none)
    (hpos : ∀ q l n, M q l = some n → 2 ≤ n ∧ n ≤ l.length)
    (hside : ∀ q p c cs, Side q p (c :: cs) → M p (c :: cs) = none → M q (c :: cs) = none)
    (hsideCons : ∀ c cs, Side (some c) (some c) cs)
    (hsideAfter : ∀ p c cs n, M p (c :: cs) = some n →
      Side (some ']') (((c :: cs).take n).getLast?) ((c :: cs).drop n)) :
    ∀ f p l q, l.length ≤ f → Side q p l → hasM M q (substFuel M f p l) = false := by
  intro f
  induction f with
  | zero =>
    intro p l q hlen _
    have hnil : l = [] := List.length_eq_zero.mp (Nat.le_zero.mp hlen)
    subst hnil
    rfl
  | succ f ih =>
    intro p l q hlen hSide
    cases l with
    | nil => rfl
    | cons c cs =>
      have hlen' : cs.length ≤ f := by simp at hlen; omega
      cases hm : M p (c :: cs) with
      | none =>
        have hq : M q (c :: cs) = none := hside q p c cs hSide hm
        have hL : M q (c :: substFuel M f (some c) cs) = none := crux f (some c) cs c q hlen' hq
        simp only [substFuel, hm]
        simp only [hasM, hL, Option.isSome_none, Bool.false_or]
        exact ih (some c) cs (some c) hlen' (hsideCons c cs)
      | some n =>
        simp only [substFuel, hm]
        rw [hasM_red hstart]
        have hb := hpos _ _ _ hm
        have hlen'' : ((c :: cs).drop n).length ≤ f := by
          simp at hlen ⊢
          omega
        exact ih _ _ _ hlen'' (hsideAfter p c cs n hm)

/-- Preservation: substituting with `M` creates no new `m`-match when the
original had none. -/
lemma preserve_scan {m M : Option Char → List Char → Option Nat}
    (Side : Option Char → Option Char → List Char → Prop)
    (crux : ∀ f p cs c q, cs.length ≤ f → m q (c :: cs) = none →
      m q (c :: substFuel M f p cs) = none)
    (hstart : ∀ q c t, patStart c = false → m q (c :: t) = none)
    (hMpos : ∀ q l n, M q l = some n → 2 ≤ n ∧ n ≤ l.length)
    (hside : ∀ q p c cs, Side q p (c :: cs) → m p (c :: cs) = none → m q (c :: cs) = none)
    (hsideCons : ∀ c cs, Side (some c) (some c) cs)
    (hsideAfter : ∀ p c cs n, M p (c :: cs) = some n →
      Side (some ']') (((c :: cs).take n).getLast?) ((c :: cs).drop n)) :
    ∀ f p l q, l.length ≤ f → Side q p l → hasM m p l = false →
      hasM m q (substFuel M f p l) = false := by
  intro f
  induction f with
  | zero =>
    intro p l q hlen _ _
    have hnil : l = [] := List.length_eq_zero.mp (Nat.le_zero.mp hlen)
    subst hnil
    rfl
  | succ f ih =>
    intro p l q hlen hSide hh
    cases l with
    | nil => rfl
    | cons c cs =>
      have hlen' : cs.length ≤ f := by simp at hlen; omega
      have hh' := hh
      simp only [hasM, Bool.or_eq_false_iff] at hh'
      have h1 : m p (c :: cs) = none := by
        rcases hm1 : m p (c :: cs) with _ | n
        · rfl
        · rw [hm1] at hh'; simp at hh'
      cases hm : M p (c :: cs) with
      | none =>
        have hq : m q (c :: cs) = none := hside q p c cs hSide h1
        have hL : m q (c :: substFuel M f (some c) cs) = none := crux f (some c) cs c q hlen' hq
        simp only [substFuel, hm]
        simp only [hasM, hL, Option.isSome_none, Bool.false_or]
        exact ih (some c) cs (some c) hlen' (hsideCons c cs) hh'.2
      | some n =>
        simp only [substFuel, hm]
        rw [hasM_red hstart]
        have hb := hMpos _ _ _ hm
        have hlen'' : ((c :: cs).drop n).length ≤ f := by
          simp at hlen ⊢
          omega
        have hdropped : hasM m (((c :: cs).take n).getLast?) ((c :: cs).drop n) = false := by
          rcases n with _ | n'
          · omega
          · exact hasM_drop n' (c :: cs) p hh
        exact ih _ _ _ hlen'' (hsideAfter p c cs n hm) hdropped

/-! ### Instantiation for the three phone patterns -/

lemma notWord_notDigit {c : Char} (h : isWordChar c = false) : c.isDigit = false := by
  cases hd : c.isDigit
  · rfl
  · exact absurd (digit_word hd) (by simp [h])


lemma sideB_cons (c : Char) (cs : List Char) : SideB (some c) (some c) cs := Or.inl rfl

lemma sideB_after3 : ∀ (p : Option Char) (c : Char) cs n, match3 p (c :: cs) = some n →
    SideB (some ']') (((c :: cs).take n).getLast?) ((c :: cs).drop n) :=
  fun p c cs n hm => Or.inr ⟨by decide, match3_endB hm⟩

lemma sideB_after2 : ∀ (p : Option Char) (c : Char) cs n, match2 p (c :: cs) = some n →
    SideB (some ']') (((c :: cs).take n).getLast?) ((c :: cs).drop n) :=
  fun p c cs n hm => Or.inr ⟨by decide, match2_endB hm⟩

lemma sideB_match3 : ∀ (q p : Option Char) (c : Char) cs, SideB q p (c :: cs) →
    match3 p (c :: cs) = none → match3 q (c :: cs) = none := by
  intro q p c cs hS h
  rcases hS with hq | ⟨hq, hw⟩
  · rw [match3_prevWord hq]
    exact h
  · have hwc : isWordChar c = false := by simpa [headNotWord] using hw
    exact match3_none_of_head (notWord_notDigit hwc)

lemma sideB_match2 : ∀ (q p : Option Char) (c : Char) cs, SideB q p (c :: cs) →
    match2 p (c :: cs) = none → match2 q (c :: cs) = none := by
  intro q p c cs hS h
  rcases hS with hq | ⟨hq, hw⟩
  · rw [match2_prevWord hq]
    exact h
  · have hwc : isWordChar c = false := by simpa [headNotWord] using hw
    exact match2_none_of_head (notWord_notDigit hwc)

lemma sideB_match1 : ∀ (q p : Option Char) (c : Char) cs, SideB q p (c :: cs) →
    match1 p (c :: cs) = none → match1 q (c :: cs) = none :=
  fun q p c cs _ h => (match1_prevAny q p (c :: cs)).trans h

/-- Specializations of the crux lemma. -/
lemma crux3 {M : Option Char → List Char → Option Nat}
    (hMfirstB : ∀ q l n, M q l = some n → optWord q = false)
    {f : Nat} {p : Option Char} {cs : List Char} {c : Char} {q : Option Char}
    (hf : cs.length ≤ f) (hnone : match3 q (c :: cs) = none) :
    match3 q (c :: substFuel M f p cs) = none :=
  @crux_b match3 M (fun _ _ _ _ h ht => match3_det h ht) (fun _ _ _ h => match3_last h)
    (fun _ _ _ h => match3_chars h) (fun _ _ _ h => match3_bounds h) hMfirstB
    f p cs c q hf hnone

lemma crux2 {M : Option Char → List Char → Option Nat}
    (hMfirstB : ∀ q l n, M q l = some n → optWord q = false)
    {f : Nat} {p : Option Char} {cs : List Char} {c : Char} {q : Option Char}
    (hf : cs.length ≤ f) (hnone : match2 q (c :: cs) = none) :
    match2 q (c :: substFuel M f p cs) = none :=
  @crux_b match2 M (fun _ _ _ _ h ht => match2_det h ht) (fun _ _ _ h => match2_last h)
    (fun _ _ _ h => match2_chars h) (fun _ _ _ h => match2_bounds h) hMfirstB
    f p cs c q hf hnone

/-- After the third `re.sub`, no position matches pattern 3. -/
lemma no3_after_subst3 (l : List Char) : hasM match3 none (subst match3 l) = false :=
  self_scan SideB (fun f p cs c q hf hn => crux3 (fun _ _ _ h => match3_firstB h) hf hn)
    match3_startChar (fun _ _ _ h => match3_bounds h) sideB_match3 sideB_cons
    sideB_after3 l.length none l none le_rfl (Or.inl rfl)

/-- After the second `re.sub`, no position matches pattern 2. -/
lemma no2_after_subst2 (l : List Char) : hasM match2 none (subst match2 l) = false :=
  self_scan SideB (fun f p cs c q hf hn => crux2 (fun _ _ _ h => match2_firstB h) hf hn)
    match2_startChar (fun _ _ _ h => match2_bounds h) sideB_match2 sideB_cons
    sideB_after2 l.length none l none le_rfl (Or.inl rfl)

/-- After the first `re.sub`, no position matches pattern 1. -/
lemma no1_after_subst1 (l : List Char) : hasM match1 none (subst match1 l) = false := by
  refine self_scan (fun _ _ _ => True) (fun f p cs c q hf hn => crux_1g hf hn)
    match1_startChar (fun _ _ _ h => match1_bounds h) ?_ (fun _ _ => trivial)
    (fun _ _ _ _ _ => trivial) l.length none l none le_rfl trivial
  exact fun q p c cs _ h => (match1_prevAny q p (c :: cs)).trans h

/-- Substituting pattern 3 creates no pattern-2 match. -/
lemma no2_preserved_subst3 {l : List Char} (h : hasM match2 none l = false) :
    hasM match2 none (subst match3 l) = false :=
  preserve_scan SideB (fun f p cs c q hf hn => crux2 (fun _ _ _ h' => match3_firstB h') hf hn)
    match2_startChar (fun _ _ _ h' => match3_bounds h') sideB_match2 sideB_cons
    sideB_after3 l.length none l none le_rfl (Or.inl rfl) h

/-- Substituting pattern 2 creates no pattern-1 match. -/
lemma no1_preserved_subst2 {l : List Char} (h : hasM match1 none l = false) :
    hasM match1 none (subst match2 l) = false :=
  preserve_scan SideB (fun f p cs c q hf hn => crux_1g hf hn)
    match1_startChar (fun _ _ _ h' => match2_bounds h') sideB_match1 sideB_cons
    sideB_after2 l.length none l none le_rfl (Or.inl rfl) h

/-- Substituting pattern 3 creates no pattern-1 match. -/
lemma no1_preserved_subst3 {l : List Char} (h : hasM match1 none l = false) :
    hasM match1 none (subst match3 l) = false :=
  preserve_scan SideB (fun f p cs c q hf hn => crux_1g hf hn)
    match1_startChar (fun _ _ _ h' => match3_bounds h') sideB_match1 sideB_cons
    sideB_after3 l.length none l none le_rfl (Or.inl rfl) h

/-- The redaction output contains no match of any of the three patterns. -/
lemma redactList_noMatch (l : List Char) :
    hasM match1 none (redactList l) = false ∧
    hasM match2 none (redactList l) = false ∧
    hasM match3 none (redactList l) = false := by
  refine ⟨?_, ?_, ?_⟩
  · exact no1_preserved_subst3 (no1_preserved_subst2 (no1_after_subst1 l))
  · exact no2_preserved_subst3 (no2_after_subst2 (subst match1 l))
  · exact no3_after_subst3 (subst match2 (subst match1 l))

/-- A single substitution pass is the identity on a match-free string. -/
lemma subst_id_of_noMatch {m : Option Char → List Char → Option Nat} {l : List Char}
    (h : hasM m none l = false) : subst m l = l :=
  substFuel_id l.length none l le_rfl h

/-- Redacting an already redacted string changes nothing. -/
lemma redactList_idem (l : List Char) : redactList (redactList l) = redactList l := by
  obtain ⟨h1, h2, h3⟩ := redactList_noMatch l
  show subst match3 (subst match2 (subst match1 (redactList l))) = redactList l
  rw [subst_id_of_noMatch h1, subst_id_of_noMatch h2, subst_id_of_noMatch h3]

/-- A string with no match of any pattern is left unchanged. -/
lemma redactList_id {l : List Char} (h1 : hasM match1 none l = false)
    (h2 : hasM match2 none l = false) (h3 : hasM match3 none l = false) :
    redactList l = l := by
  show subst match3 (subst match2 (subst match1 l)) = l
  rw [subst_id_of_noMatch h1, subst_id_of_noMatch h2, subst_id_of_noMatch h3]

namespace worker

lemma process_message_spec (nowIso : String) (m : WorkerMsg) (worker_id : String)
    (attempt : Nat) (store : List StoredItem) :
    process_message nowIso m worker_id attempt store =
      (if msgOk m then (true, putItem store (msgItem worker_id nowIso m attempt))
       else (false, store)) := by
  rcases m with ⟨ti, li, nt, so, rc, ri⟩
  rcases ti with _ | ti <;> rcases li with _ | li <;> rcases nt with _ | nt <;>
    rcases so with _ | so <;> rcases rc with _ | rc <;> rcases ri with _ | ri <;>
    simp [msgOk, process_message, store_processed_log, msgItem]


lemma foldl_recordStep (worker_id nowIso : String) :
    ∀ (records : List SqsRecord) (acc : List String × List StoredItem),
      records.foldl (recordStep worker_id nowIso) acc =
        (acc.1 ++ (records.filter (fun r => !recordOk r)).map (fun r => r.messageId),
         (records.filter (fun r => recordOk r)).foldl
           (fun s r => putItem s (recordItem worker_id nowIso r)) acc.2) := by
  intro records
  induction records with
  | nil => intro acc; simp
  | cons r rs ih =>
    intro acc
    rcases hb : r.body with _ | m
    · have hok : recordOk r = false := by simp [recordOk, hb]
      rw [List.foldl_cons, ih]
      simp [recordStep, hb, hok, List.filter_cons]
    · cases hok : msgOk m with
      | true =>
        have hok' : recordOk r = true := by simp [recordOk, hb, hok]
        rw [List.foldl_cons, ih]
        simp [recordStep, hb, process_message_spec, hok, hok', List.filter_cons, recordItem]
      | false =>
        have hok' : recordOk r = false := by simp [recordOk, hb, hok]
        rw [List.foldl_cons, ih]
        simp [recordStep, hb, process_message_spec, hok, hok', List.filter_cons]

/-- The batch handler: failures are exactly the not-ok records, in order, and
the store receives one put per ok record, in order. -/
lemma lambda_handler_spec (worker_id nowIso : String) (records : List SqsRecord)
    (store : List StoredItem) :
    lambda_handler worker_id nowIso records store =
      ((records.filter (fun r => !recordOk r)).map (fun r => r.messageId),
       (records.filter (fun r => recordOk r)).foldl
         (fun s r => putItem s (recordItem worker_id nowIso r)) store) := by
  unfold lambda_handler
  rw [foldl_recordStep]
  simp

lemma putItem_length_of_key_new {store : List StoredItem} {it : StoredItem}
    (h : ∀ e ∈ store, keyOf e ≠ keyOf it) :
    putItem store it = store ++ [it] := by
  unfold putItem
  congr 1
  apply List.filter_eq_self.mpr
  intro e he
  have hk := h e he
  simp only [Bool.not_eq_true', Bool.and_eq_false_iff, beq_eq_false_iff_ne, ne_eq]
  by_cases ht : e.tenant_id = it.tenant_id
  · refine Or.inr ?_
    intro hl
    exact hk (by simp [keyOf, ht, hl])
  · exact Or.inl ht

lemma foldl_putItem_length :
    ∀ (items : List StoredItem) (store : List StoredItem),
      (∀ it ∈ items, ∀ e ∈ store, keyOf e ≠ keyOf it) →
      (items.map keyOf).Nodup →
      (items.foldl putItem store).length = store.length + items.length := by
  intro items
  induction items with
  | nil => intro store _ _; simp
  | cons it its ih =>
    intro store hnew hnd
    rw [List.foldl_cons, putItem_length_of_key_new (hnew it (by simp))]
    have hnd' : (its.map keyOf).Nodup := by
      simp only [List.map_cons, List.nodup_cons] at hnd
      exact hnd.2
    have hnotin : keyOf it ∉ its.map keyOf := by
      simp only [List.map_cons, List.nodup_cons] at hnd
      exact hnd.1
    rw [ih (store ++ [it]) ?_ hnd']
    · simp
      omega
    · intro it' hit' e he
      rcases List.mem_append.mp he with he | he
      · exact hnew it' (by simp [hit']) e he
      · have : e = it := by simpa using he
        subst this
        intro hkey
        exact hnotin (hkey ▸ List.mem_map_of_mem keyOf hit')

lemma store_processed_log_some {nowIso : String} {message : WorkerMsg} {modified_data : String}
    {attempt : Nat} {worker_id : String} {store : List StoredItem}
    {tid lid src ntext rcv rid : String}
    (h1 : message.tenant_id = some tid) (h2 : message.log_id = some lid)
    (h3 : message.source = some src) (h4 : message.normalized_text = some ntext)
    (h5 : message.received_at = some rcv) (h6 : message.request_id = some rid) :
    store_processed_log nowIso message modified_data attempt worker_id store =
      (true, putItem store
        ⟨tid, lid, src, ntext, modified_data, nowIso, rcv, rid, worker_id, attempt⟩) := by
  unfold store_processed_log
  rw [h1, h2, h3, h4, h5, h6]

/-- After a put, the entries under the written key are exactly the one item
just written. -/
lemma putItem_filter_key (store : List StoredItem) (it : StoredItem) :
    (putItem store it).filter
      (fun e => e.tenant_id == it.tenant_id && e.log_id == it.log_id) = [it] := by
  unfold putItem
  rw [List.filter_append, List.filter_filter]
  have h1 : store.filter (fun e =>
      (e.tenant_id == it.tenant_id && e.log_id == it.log_id) &&
      !(e.tenant_id == it.tenant_id && e.log_id == it.log_id)) = [] := by
    apply List.filter_eq_nil.mpr
    intro a _
    cases a.tenant_id == it.tenant_id && a.log_id == it.log_id <;> simp
  rw [h1]
  simp

end worker

namespace api

/-- Every error the validator returns is a 400 client error. -/
lemma validate_error_400 {jparse : String → JsonParse}
    {genLogId genReqId nowIso : String} {event : ApiEvent} {r : HttpResp}
    (h : validate_and_normalize jparse genLogId genReqId nowIso event = .error r) :
    r.statusCode = 400 := by
  unfold validate_and_normalize at h
  dsimp only at h
  split_ifs at h with h1 h2 h3 h4
  · injection h with h'; subst h'; rfl
  · rcases hj : jparse ((event.body).getD "") with _ | _ | payload <;> rw [hj] at h <;>
      dsimp only at h
    · injection h with h'; subst h'; rfl
    · exact ValidateOutcome.noConfusion h
    · split_ifs at h with h5 h6
      · injection h with h'; subst h'; rfl
      · injection h with h'; subst h'; rfl
  · injection h with h'; subst h'; rfl
  · injection h with h'; subst h'; rfl

lemma falsyS_false {o : Option String} (h : falsyS o = false) : ∃ s, o = some s ∧ s ≠ "" := by
  rcases o with _ | s
  · simp [falsyS] at h
  · exact ⟨s, rfl, by simpa [falsyS] using h⟩

/-- A request whose tenant identifier is missing from the place its content
kind requires is rejected by the validator — provided the JSON body does not
parse to a non-object value, where the validator raises instead. -/
lemma validate_missing_tenant (jparse : String → JsonParse)
    (genLogId genReqId nowIso : String) (event : ApiEvent)
    (hmiss :
      (containsSub ((dictGet (lowerHeaders event.headers) "content-type").getD "")
          "application/json" = true ∧
        jparse (event.body.getD "") ≠ .nonObject ∧
        ∀ p, jparse (event.body.getD "") = .obj p → falsyS p.tenant_id = true) ∨
      (containsSub ((dictGet (lowerHeaders event.headers) "content-type").getD "")
          "application/json" = false ∧
       containsSub ((dictGet (lowerHeaders event.headers) "content-type").getD "")
          "text/plain" = true ∧
       falsyS (dictGet (lowerHeaders event.headers) "x-tenant-id") = true)) :
    ∃ r, validate_and_normalize jparse genLogId genReqId nowIso event = .error r := by
  unfold validate_and_normalize
  dsimp only
  rcases hmiss with ⟨hJ, hNO, hT⟩ | ⟨hNJ, hTP, hH⟩
  · by_cases h1 : (falsyS event.body || pyStrip (event.body.getD "") == "") = true
    · rw [if_pos h1]
      exact ⟨_, rfl⟩
    · rw [if_neg h1, hJ, if_pos rfl]
      rcases hj : jparse (event.body.getD "") with _ | _ | payload <;> dsimp only
      · exact ⟨_, rfl⟩
      · exact absurd hj hNO
      · rw [hT payload hj, if_pos rfl]
        exact ⟨_, rfl⟩
  · by_cases h1 : (falsyS event.body || pyStrip (event.body.getD "") == "") = true
    · rw [if_pos h1]
      exact ⟨_, rfl⟩
    · rw [if_neg h1, hNJ, if_neg (by simp), hTP, if_pos rfl, hH, if_pos rfl]
      exact ⟨_, rfl⟩

/-- The handler forwards a validation error unchanged and publishes nothing. -/
lemma lambda_handler_of_error {jparse : String → JsonParse}
    {genLogId genReqId nowIso : String} {publishOk : Bool} {event : ApiEvent} {r : HttpResp}
    (hm : event.method = "POST") (hp : event.rawPath = "/ingest")
    (h : validate_and_normalize jparse genLogId genReqId nowIso event = .error r) :
    lambda_handler jparse genLogId genReqId nowIso publishOk event = .respond ⟨r, []⟩ := by
  unfold lambda_handler
  rw [hm, hp, h]
  simp

/-- The handler on an accepted message: 202 with the message enqueued on
publish success, 500 with nothing enqueued on publish failure. -/
lemma lambda_handler_of_ok {jparse : String → JsonParse}
    {genLogId genReqId nowIso : String} {publishOk : Bool} {event : ApiEvent}
    {message : IngestMessage}
    (hm : event.method = "POST") (hp : event.rawPath = "/ingest")
    (h : validate_and_normalize jparse genLogId genReqId nowIso event = .ok message) :
    lambda_handler jparse genLogId genReqId nowIso publishOk event =
      if publishOk then
        .respond ⟨⟨202, [("status", "accepted"), ("log_id", message.log_id),
                ("request_id", message.request_id)]⟩, [message]⟩
      else
        .respond ⟨⟨500, [("error", "Internal Server Error"),
                ("message", "Failed to publish message to queue")]⟩, []⟩ := by
  unfold lambda_handler
  rw [hm, hp, h]
  cases publishOk <;> simp [publish_to_sqs]

/-- Every message the validator accepts has a non-empty `normalized_text`,
and for plain-text uploads it is non-empty even after trimming. -/
lemma validate_ok_text {jparse : String → JsonParse}
    {genLogId genReqId nowIso : String} {event : ApiEvent} {message : IngestMessage}
    (h : validate_and_normalize jparse genLogId genReqId nowIso event = .ok message) :
    message.normalized_text ≠ "" ∧
    (message.source = "text_upload" → pyStrip message.normalized_text ≠ "") := by
  unfold validate_and_normalize at h
  dsimp only at h
  split_ifs at h with h1 h2 h3 h4
  · rcases hj : jparse (event.body.getD "") with _ | _ | payload <;> rw [hj] at h <;>
      dsimp only at h
    · exact ValidateOutcome.noConfusion h
    · exact ValidateOutcome.noConfusion h
    · split_ifs at h with h5 h6 h7 <;>
      · injection h with h'
        subst h'
        have h6' : falsyS payload.text = false := by simpa using h6
        obtain ⟨s, hs, hne⟩ := falsyS_false h6'
        refine ⟨by simpa [hs] using hne, ?_⟩
        intro hsrc
        exact absurd hsrc (by simp)
  · injection h with h'
    subst h'
    have hb : ¬(pyStrip (event.body.getD "") = "") := by
      simp only [Bool.or_eq_true, not_or] at h1
      simpa using h1.2
    refine ⟨?_, fun _ => hb⟩
    show event.body.getD "" ≠ ""
    intro he
    rw [he] at hb
    exact hb (by decide)

/-- A plain-text request with a non-blank body and a non-empty tenant header
normalizes successfully to the expected message. -/
lemma validate_text_plain {jparse : String → JsonParse}
    {genLogId genReqId nowIso : String} {event : ApiEvent} {b t : String}
    (hNJ : containsSub ((dictGet (lowerHeaders event.headers) "content-type").getD "")
      "application/json" = false)
    (hTP : containsSub ((dictGet (lowerHeaders event.headers) "content-type").getD "")
      "text/plain" = true)
    (hb : event.body = some b) (hbt : pyStrip b ≠ "")
    (hh : dictGet (lowerHeaders event.headers) "x-tenant-id" = some t) (ht : t ≠ "") :
    validate_and_normalize jparse genLogId genReqId nowIso event =
      .ok { tenant_id := t
            log_id := genLogId
            normalized_text := b
            source := "text_upload"
            received_at := nowIso
            request_id := (dictGet (lowerHeaders event.headers) "x-request-id").getD genReqId } := by
  have hbne : b ≠ "" := by
    intro he
    rw [he] at hbt
    exact hbt (by decide)
  unfold validate_and_normalize
  dsimp only
  rw [hb]
  rw [if_neg (by simp [falsyS, hbne, hbt])]
  rw [hNJ]
  simp only [Bool.false_eq_true, if_false]
  rw [hTP]
  simp only [if_true]
  rw [hh]
  rw [if_neg (by simp [falsyS, ht])]
  simp

end api

/-! ### The claims -/

/-- C1: for every batch of delivered records, the worker's handler reports as
failed exactly the identifiers of the records whose processing failed — a
record whose body fails to decode is among them, reported for retry rather
than silently dropped; every other record is processed and its item written
to the store, and one record's failure never aborts or discards the writes of
sibling records (the store receives exactly one put per successful record, in
order).  Starting from an empty store with pairwise-distinct storage keys,
the number of persisted records equals the number of successful records, so a
batch of N items with exactly one failure persists N−1 records and reports
exactly that one identifier. -/
theorem worker_batch_partial_failure_isolation
    (worker_id nowIso : String) (records : List worker.SqsRecord)
    (store : List worker.StoredItem) :
    (worker.lambda_handler worker_id nowIso records store).1 =
      (records.filter (fun r => !worker.recordOk r)).map (fun r => r.messageId) ∧
    (worker.lambda_handler worker_id nowIso records store).2 =
      ((records.filter (fun r => worker.recordOk r)).map
        (worker.recordItem worker_id nowIso)).foldl worker.putItem store ∧
    (((records.filter (fun r => worker.recordOk r)).map
        (fun r => worker.keyOf (worker.recordItem worker_id nowIso r))).Nodup →
      (worker.lambda_handler worker_id nowIso records []).2.length =
        (records.filter (fun r => worker.recordOk r)).length) := by
  refine ⟨by rw [worker.lambda_handler_spec], ?_, ?_⟩
  · rw [worker.lambda_handler_spec, List.foldl_map]
  · intro hnd
    rw [worker.lambda_handler_spec]
    dsimp only
    rw [← List.foldl_map]
    rw [worker.foldl_putItem_length _ _ (fun it _ e he => absurd he (List.not_mem_nil e))
      (by simpa [List.map_map, Function.comp] using hnd)]
    simp

theorem worker_batch_partial_failure_isolation_witness :
    (worker.lambda_handler "w0" "t0" worker.wbatch []).1 = ["m2"] ∧
    (worker.lambda_handler "w0" "t0" worker.wbatch []).2.length = 2 := by
  have h := worker_batch_partial_failure_isolation "w0" "t0" worker.wbatch []
  refine ⟨?_, ?_⟩
  · rw [h.1]
    decide
  · rw [h.2.2 (by decide)]
    decide

/-- C2: the redaction transform is idempotent — for every string `s`,
`redact_phone_numbers (redact_phone_numbers s) = redact_phone_numbers s`,
where the transform applies the ordered list of phone-number patterns
sequentially, each over the output of the previous. -/
theorem redact_idempotent_all_strings (s : String) :
    worker.redact_phone_numbers (worker.redact_phone_numbers s) =
      worker.redact_phone_numbers s := by
  show (⟨redactList (redactList s.data)⟩ : String) = ⟨redactList s.data⟩
  rw [redactList_idem]

/-- C3: storage is last-writer-wins on `(tenant_id, log_id)`.  Writing two
records with the same key `(T, L)` (different redacted text, attempt, worker
or timestamps) leaves exactly one stored record under `(T, L)`, and it is the
entire second item — a full replacement with no merge of fields. -/
theorem storage_last_writer_wins
    (now1 now2 : String) (msg1 msg2 : worker.WorkerMsg) (T L : String)
    (mod1 mod2 : String) (a1 a2 : Nat) (w1 w2 : String) (store : List worker.StoredItem)
    (src1 ntext1 rcv1 rid1 src2 ntext2 rcv2 rid2 : String)
    (h1t : msg1.tenant_id = some T) (h1l : msg1.log_id = some L)
    (h1s : msg1.source = some src1) (h1n : msg1.normalized_text = some ntext1)
    (h1r : msg1.received_at = some rcv1) (h1q : msg1.request_id = some rid1)
    (h2t : msg2.tenant_id = some T) (h2l : msg2.log_id = some L)
    (h2s : msg2.source = some src2) (h2n : msg2.normalized_text = some ntext2)
    (h2r : msg2.received_at = some rcv2) (h2q : msg2.request_id = some rid2) :
    (worker.store_processed_log now1 msg1 mod1 a1 w1 store).1 = true ∧
    (worker.store_processed_log now2 msg2 mod2 a2 w2
        (worker.store_processed_log now1 msg1 mod1 a1 w1 store).2).1 = true ∧
    ((worker.store_processed_log now2 msg2 mod2 a2 w2
        (worker.store_processed_log now1 msg1 mod1 a1 w1 store).2).2).filter
        (fun e => e.tenant_id == T && e.log_id == L) =
      [⟨T, L, src2, ntext2, mod2, now2, rcv2, rid2, w2, a2⟩] := by
  rw [worker.store_processed_log_some h1t h1l h1s h1n h1r h1q,
    worker.store_processed_log_some h2t h2l h2s h2n h2r h2q]
  refine ⟨rfl, rfl, ?_⟩
  exact worker.putItem_filter_key
    (worker.putItem store ⟨T, L, src1, ntext1, mod1, now1, rcv1, rid1, w1, a1⟩)
    ⟨T, L, src2, ntext2, mod2, now2, rcv2, rid2, w2, a2⟩

theorem storage_last_writer_wins_witness :
    ((worker.store_processed_log "t2" worker.wmsgKey2 "second" 2 "w2"
        (worker.store_processed_log "t1" worker.wmsgKey "first" 1 "w1" []).2).2).filter
      (fun e => e.tenant_id == "acme" && e.log_id == "001") =
      [⟨"acme", "001", "json_upload", "second text", "second", "t2", "t1", "r2", "w2", 2⟩] := by
  have h := storage_last_writer_wins "t1" "t2" worker.wmsgKey worker.wmsgKey2 "acme" "001"
    "first" "second" 1 2 "w1" "w2" [] "json_upload" "first text" "t0" "r1"
    "json_upload" "second text" "t1" "r2" rfl rfl rfl rfl rfl rfl rfl rfl rfl rfl rfl rfl
  exact h.2.2

/-- C4 (amended): the claim holds only when the JSON body parses to an
object.  Python catches only `json.JSONDecodeError`, so a body such as `[]`
that parses to a non-object makes `payload.get(...)` raise an uncaught
`AttributeError` and the handler crashes instead of answering 400 (see the
counterexample).  With that proviso, a request that lacks a tenant
identifier in the place matching its content kind — the `tenant_id` field
for JSON requests, the `X-Tenant-ID` header for plain-text requests — is
answered with HTTP 400 and no message is published. -/
theorem api_missing_tenant_rejected
    (jparse : String → api.JsonParse) (genLogId genReqId nowIso : String)
    (publishOk : Bool) (event : api.ApiEvent)
    (hm : event.method = "POST") (hp : event.rawPath = "/ingest")
    (hmiss :
      (api.containsSub ((api.dictGet (api.lowerHeaders event.headers) "content-type").getD "")
          "application/json" = true ∧
        jparse (event.body.getD "") ≠ .nonObject ∧
        ∀ p, jparse (event.body.getD "") = .obj p → api.falsyS p.tenant_id = true) ∨
      (api.containsSub ((api.dictGet (api.lowerHeaders event.headers) "content-type").getD "")
          "application/json" = false ∧
       api.containsSub ((api.dictGet (api.lowerHeaders event.headers) "content-type").getD "")
          "text/plain" = true ∧
       api.falsyS (api.dictGet (api.lowerHeaders event.headers) "x-tenant-id") = true)) :
    ∃ r, api.lambda_handler jparse genLogId genReqId nowIso publishOk event =
        .respond ⟨r, []⟩ ∧ r.statusCode = 400 := by
  obtain ⟨r, hr⟩ :=
    api.validate_missing_tenant jparse genLogId genReqId nowIso event hmiss
  exact ⟨r, api.lambda_handler_of_error hm hp hr, api.validate_error_400 hr⟩

theorem api_missing_tenant_rejected_witness :
    ∃ r, api.lambda_handler api.jparseMissingTenant "gl" "gr" "now0" true
        api.evMissingTenant = .respond ⟨r, []⟩ ∧ r.statusCode = 400 := by
  apply api_missing_tenant_rejected api.jparseMissingTenant "gl" "gr" "now0" true
    api.evMissingTenant rfl rfl
  refine Or.inl ⟨by decide, by decide, ?_⟩
  intro p hp
  have hv : api.jparseMissingTenant (api.evMissingTenant.body.getD "") =
      .obj ⟨none, none, some "hello"⟩ := rfl
  rw [hv] at hp
  injection hp with hp'
  subst hp'
  rfl

/-- C4 counterexample: a JSON request whose body is `[]` parses with no
`json.JSONDecodeError` yet is not an object, so the handler raises an
uncaught `AttributeError` instead of answering 400. -/
theorem json_non_object_counterexample :
    api.lambda_handler api.jparseJsonArray "gl" "gr" "now0" true api.evJsonArray =
      .raised :=
  rfl

/-- C5: redaction does not alter match-free content — for every string `s` in
which none of the three phone patterns matches at any position,
`redact_phone_numbers s = s`, byte for byte. -/
theorem redact_non_interference (s : String)
    (h1 : hasM match1 none s.data = false) (h2 : hasM match2 none s.data = false)
    (h3 : hasM match3 none s.data = false) :
    worker.redact_phone_numbers s = s := by
  obtain ⟨l⟩ := s
  show (⟨redactList l⟩ : String) = ⟨l⟩
  rw [redactList_id h1 h2 h3]

theorem redact_non_interference_witness :
    worker.redact_phone_numbers "Order #12345 costs $99.99" = "Order #12345 costs $99.99" :=
  redact_non_interference "Order #12345 costs $99.99" (by decide) (by decide) (by decide)

/-- C6 (amended): the claim that every accepted request has a
`normalized_text` that is non-empty after trimming fails for JSON uploads
whose `text` field is blank but non-empty (see the counterexample); what the
validator guarantees is that `normalized_text` is non-empty as a string, and
non-empty after trimming for plain-text uploads. -/
theorem validator_accepts_nonempty_text (jparse : String → api.JsonParse)
    (genLogId genReqId nowIso : String) (event : api.ApiEvent) (m : api.IngestMessage)
    (h : api.validate_and_normalize jparse genLogId genReqId nowIso event = .ok m) :
    m.normalized_text ≠ "" ∧ (m.source = "text_upload" → api.pyStrip m.normalized_text ≠ "") :=
  api.validate_ok_text h

theorem validator_accepts_nonempty_text_witness :
    ("Raw log message" : String) ≠ "" ∧
    (("text_upload" : String) = "text_upload" → api.pyStrip "Raw log message" ≠ "") :=
  validator_accepts_nonempty_text (fun _ => .decodeError) "gen-log" "gen-req" "now0" api.evTextAcme
    { tenant_id := "acme", log_id := "gen-log", normalized_text := "Raw log message",
      source := "text_upload", received_at := "now0", request_id := "gen-req" } rfl

/-- C6 counterexample: a JSON request whose `text` field is the single blank
`" "` is accepted (the Python truthiness check passes on a non-empty blank
string), yet its `normalized_text` is empty after trimming. -/
theorem normalized_text_blank_counterexample :
    api.validate_and_normalize api.jparseBlankText "gl" "gr" "now0" api.evBlankText =
      .ok { tenant_id := "t", log_id := "l", normalized_text := " ",
            source := "json_upload", received_at := "now0", request_id := "gr" } ∧
    api.pyStrip " " = "" :=
  ⟨rfl, rfl⟩

/-- C7: the handler's HTTP outcome mapping — a successfully normalized and
enqueued request yields 202 with the message's `log_id` and `request_id` in
the body and the message enqueued; a validation failure yields the 400 error
response unchanged; a publish failure yields 500 with nothing enqueued, so
success is never reported to the caller on a publish failure. -/
theorem api_http_outcomes
    (jparse : String → api.JsonParse) (genLogId genReqId nowIso : String)
    (publishOk : Bool) (event : api.ApiEvent)
    (hm : event.method = "POST") (hp : event.rawPath = "/ingest") :
    (∀ m, api.validate_and_normalize jparse genLogId genReqId nowIso event = .ok m →
      publishOk = true →
      api.lambda_handler jparse genLogId genReqId nowIso publishOk event =
        .respond ⟨⟨202, [("status", "accepted"), ("log_id", m.log_id),
                         ("request_id", m.request_id)]⟩,
         [m]⟩) ∧
    (∀ r, api.validate_and_normalize jparse genLogId genReqId nowIso event = .error r →
      api.lambda_handler jparse genLogId genReqId nowIso publishOk event = .respond ⟨r, []⟩ ∧
      r.statusCode = 400) ∧
    (∀ m, api.validate_and_normalize jparse genLogId genReqId nowIso event = .ok m →
      publishOk = false →
      api.lambda_handler jparse genLogId genReqId nowIso publishOk event =
        .respond ⟨⟨500, [("error", "Internal Server Error"),
                         ("message", "Failed to publish message to queue")]⟩, []⟩) := by
  refine ⟨?_, ?_, ?_⟩
  · intro m hok hpub
    subst hpub
    rw [api.lambda_handler_of_ok hm hp hok]
    exact if_pos rfl
  · intro r herr
    rw [api.lambda_handler_of_error hm hp herr]
    exact ⟨rfl, api.validate_error_400 herr⟩
  · intro m hok hpub
    subst hpub
    rw [api.lambda_handler_of_ok hm hp hok]
    exact if_neg (by decide)

theorem api_http_outcomes_witness :
    api.lambda_handler (fun _ => .decodeError) "gen-log" "gen-req" "now0" true api.evTextAcme =
      .respond ⟨⟨202, [("status", "accepted"), ("log_id", "gen-log"),
                       ("request_id", "gen-req")]⟩,
       [{ tenant_id := "acme", log_id := "gen-log", normalized_text := "Raw log message",
          source := "text_upload", received_at := "now0", request_id := "gen-req" }]⟩ :=
  (api_http_outcomes (fun _ => .decodeError) "gen-log" "gen-req" "now0" true api.evTextAcme
    rfl rfl).1 _ rfl rfl

/-- C8 (amended): the claim as stated fails when the `X-Tenant-ID` header is
present with an empty value (see the counterexample — Python's truthiness
check rejects it with a 400).  For every plain-text request with a non-blank
body and a non-empty `X-Tenant-ID` header value (case-insensitive lookup),
normalization succeeds and the message has that tenant, source
`"text_upload"`, and the entire body verbatim as `normalized_text`. -/
theorem text_plain_normalization (jparse : String → api.JsonParse)
    (genLogId genReqId nowIso : String) (event : api.ApiEvent) (b t : String)
    (hNJ : api.containsSub ((api.dictGet (api.lowerHeaders event.headers) "content-type").getD "")
      "application/json" = false)
    (hTP : api.containsSub ((api.dictGet (api.lowerHeaders event.headers) "content-type").getD "")
      "text/plain" = true)
    (hb : event.body = some b) (hbt : api.pyStrip b ≠ "")
    (hh : api.dictGet (api.lowerHeaders event.headers) "x-tenant-id" = some t) (ht : t ≠ "") :
    ∃ m, api.validate_and_normalize jparse genLogId genReqId nowIso event = .ok m ∧
      m.tenant_id = t ∧ m.source = "text_upload" ∧ m.normalized_text = b :=
  ⟨_, api.validate_text_plain hNJ hTP hb hbt hh ht, rfl, rfl, rfl⟩

theorem text_plain_normalization_witness :
    ∃ m, api.validate_and_normalize (fun _ => api.JsonParse.decodeError) "gen-log" "gen-req"
        "now0" api.evTextAcme = .ok m ∧
      m.tenant_id = "acme" ∧ m.source = "text_upload" ∧ m.normalized_text = "Raw log message" :=
  text_plain_normalization (fun _ => .decodeError) "gen-log" "gen-req" "now0" api.evTextAcme
    "Raw log message" "acme" (by decide) (by decide) rfl (by decide) rfl (by decide)

/-- C8 counterexample: a plain-text request carrying the header
`X-Tenant-ID:` with an empty value has an `X-Tenant-ID` header, yet
normalization fails with 400 instead of succeeding with the header value. -/
theorem text_plain_empty_header_counterexample :
    api.validate_and_normalize (fun _ => api.JsonParse.decodeError) "gl" "gr" "now0"
        api.evTextEmptyHeader =
      .error (api.badRequest "X-Tenant-ID header is required for text/plain requests") :=
  rfl

/-- C9: redacting `"User 555-0199 accessed /api/login"` yields exactly
`"User [REDACTED] accessed /api/login"`. -/
theorem redact_spec_scenario :
    worker.redact_phone_numbers "User 555-0199 accessed /api/login" =
      "User [REDACTED] accessed /api/login" := by
  decide

/-- C10: every record the worker persists contains the original, unredacted
input text in `original_text` (equal to the message's `normalized_text`),
alongside the redacted text in `modified_data`; persisting never removes or
redacts the original text field. -/
theorem worker_persists_original_text
    (nowIso : String) (m : worker.WorkerMsg) (worker_id : String) (attempt : Nat)
    (store : List worker.StoredItem)
    (h : (worker.process_message nowIso m worker_id attempt store).1 = true) :
    ∃ t it, m.normalized_text = some t ∧
      (worker.process_message nowIso m worker_id attempt store).2 =
        worker.putItem store it ∧
      it.original_text = t ∧ it.modified_data = worker.redact_phone_numbers t := by
  cases hok : worker.msgOk m with
  | false =>
    rw [worker.process_message_spec, hok] at h
    simp at h
  | true =>
    have hnt : ∃ t, m.normalized_text = some t := by
      have h' := hok
      unfold worker.msgOk at h'
      simp only [Bool.and_eq_true, Option.isSome_iff_exists] at h'
      exact h'.1.1.1.1.1
    obtain ⟨t, hts⟩ := hnt
    refine ⟨t, worker.msgItem worker_id nowIso m attempt, hts, ?_, ?_, ?_⟩
    · rw [worker.process_message_spec, hok]
      simp
    · simp [worker.msgItem, hts]
    · simp [worker.msgItem, hts]

theorem worker_persists_original_text_witness :
    ∃ t it, worker.wmsg1.normalized_text = some t ∧
      (worker.process_message "t0" worker.wmsg1 "w0" 1 []).2 = worker.putItem [] it ∧
      it.original_text = t ∧ it.modified_data = worker.redact_phone_numbers t :=
  worker_persists_original_text "t0" worker.wmsg1 "w0" 1 [] (by decide)

end RDP
